import Mathlib

set_option maxRecDepth 8000
set_option linter.unusedVariables false

/- Verification of the SSE (server-sent events) hub of this repository.

   The development shallowly embeds the pieces of the source that the
   properties below are about:
   - the wire codec: SSEManager.formatSSEMessage (sse-manager) and
     parseSSEMessage plus the read-loop buffer handling (use-sse.ts);
   - the connection registry SSEConnectionStore (connection-store);
   - the SSEManager operations createConnection, removeConnection,
     sendEvent and the heartbeat tick;
   - the client dispatcher handleMessage (use-sse.ts).

   TypeScript strings are modelled as lists of characters, JS Map and Set
   as association lists and duplicate-free lists kept in insertion order,
   matching the iteration order of the source.  JS falsiness of optional
   strings (undefined and the empty string) is modelled explicitly. -/

abbrev Str := List Char

/-- JS s.startsWith(tag): tag is a character-by-character prefix of s. -/
def strStarts : Str → Str → Bool
  | [], _ => true
  | _ :: _, [] => false
  | a :: as, b :: bs => if a = b then strStarts as bs else false

/-- JS s.split(sep) for a one-character separator: every occurrence of sep
cuts the string, the empty string splits to one empty piece. -/
def splitSep (sep : Char) : Str → List Str
  | [] => [[]]
  | c :: rest =>
    let r := splitSep sep rest
    if c = sep then [] :: r
    else (c :: r.headI) :: r.tail

/-- JS buffer.split with the two-character separator LF LF, leftmost and
non-overlapping, as the client read loop uses to cut the byte stream into
records. -/
def splitNN : Str → List Str
  | '\n' :: '\n' :: rest => [] :: splitNN rest
  | c :: rest =>
    let r := splitNN rest
    (c :: r.headI) :: r.tail
  | [] => [[]]

/-- Decimal digit characters, for rendering the retry field the way JS
string interpolation renders a number. -/
def digitChar : Nat → Char
  | 0 => '0' | 1 => '1' | 2 => '2' | 3 => '3' | 4 => '4'
  | 5 => '5' | 6 => '6' | 7 => '7' | 8 => '8' | _ => '9'

/-- Fuelled helper for natStr. -/
def natStrAux : Nat → Nat → Str
  | 0, _ => []
  | fuel + 1, n => if n < 10 then [digitChar n] else natStrAux fuel (n / 10) ++ [digitChar (n % 10)]

/-- Decimal rendering of a natural number (JS template-literal rendering of
the retry milliseconds). -/
def natStr (n : Nat) : Str := natStrAux (n + 1) n

theorem digitChar_ne_newline (n : Nat) : digitChar n ≠ '\n' := by
  unfold digitChar
  split <;> decide

theorem newline_not_mem_natStrAux (fuel n : Nat) : '\n' ∉ natStrAux fuel n := by
  induction fuel generalizing n with
  | zero => simp [natStrAux]
  | succ fuel ih =>
    simp only [natStrAux]
    split
    · intro h
      rcases List.mem_singleton.mp h with h
      exact digitChar_ne_newline n h.symm
    · intro h
      rcases List.mem_append.mp h with h | h
      · exact ih (n / 10) h
      · exact digitChar_ne_newline (n % 10) (List.mem_singleton.mp h).symm

theorem splitSep_ne_nil (sep : Char) (s : Str) : splitSep sep s ≠ [] := by
  cases s with
  | nil => simp [splitSep]
  | cons c rest =>
    simp only [splitSep]
    split <;> simp

theorem splitSep_cons_sep (sep : Char) (rest : Str) :
    splitSep sep (sep :: rest) = [] :: splitSep sep rest := by simp [splitSep]

theorem splitSep_cons_ne (sep c : Char) (rest : Str) (h : c ≠ sep) :
    splitSep sep (c :: rest) =
      (c :: (splitSep sep rest).headI) :: (splitSep sep rest).tail := by
  simp [splitSep, h]

theorem length_splitSep (sep : Char) (s : Str) :
    (splitSep sep s).length = s.count sep + 1 := by
  induction s with
  | nil => rfl
  | cons c rest ih =>
    by_cases h : c = sep
    · subst h
      rw [splitSep_cons_sep]
      simp [ih]
    · rw [splitSep_cons_ne _ _ _ h]
      rcases hr : splitSep sep rest with _ | ⟨a, t⟩
      · exact absurd hr (splitSep_ne_nil sep rest)
      · have := ih
        rw [hr] at this
        simp at this
        simp [List.count_cons, h]
        omega

theorem splitSep_append_sep (sep : Char) (a b : Str) (ha : sep ∉ a) :
    splitSep sep (a ++ sep :: b) = a :: splitSep sep b := by
  induction a with
  | nil => simp [splitSep_cons_sep]
  | cons x a' ih =>
    have hx : x ≠ sep := by rintro rfl; exact ha (List.mem_cons_self _ _)
    have ha' : sep ∉ a' := fun hm => ha (List.mem_cons_of_mem _ hm)
    rw [List.cons_append, splitSep_cons_ne _ _ _ hx, ih ha']
    simp

theorem not_mem_of_mem_splitSep (sep : Char) (s p : Str) (hp : p ∈ splitSep sep s) :
    sep ∉ p := by
  induction s generalizing p with
  | nil =>
    simp [splitSep] at hp
    simp [hp]
  | cons c rest ih =>
    by_cases h : c = sep
    · subst h
      rw [splitSep_cons_sep] at hp
      rcases List.mem_cons.mp hp with hp | hp
      · simp [hp]
      · exact ih p hp
    · rw [splitSep_cons_ne _ _ _ h] at hp
      rcases hr : splitSep sep rest with _ | ⟨a, t⟩
      · exact absurd hr (splitSep_ne_nil sep rest)
      · rw [hr] at hp
        simp only [List.headI, List.tail] at hp
        rcases List.mem_cons.mp hp with hp | hp
        · subst hp
          intro hm
          rcases List.mem_cons.mp hm with hm | hm
          · exact h hm.symm
          · exact ih a (by rw [hr]; exact List.mem_cons_self _ _) hm
        · exact ih p (by rw [hr]; exact List.mem_cons_of_mem _ hp)

/-- JSON values, the payloads events carry (numbers restricted to the
integers, which is all the repository's own payloads use). -/
inductive Json where
  | null
  | bool (b : Bool)
  | num (n : Int)
  | str (s : Str)
  | arr (elems : List Json)
  | obj (fields : List (Str × Json))

/-- The SSEMessage record of types.ts: optional event name, optional id,
optional retry, and the payload text (already JSON-encoded by the caller,
sendEvent passes JSON.stringify(event.data)). -/
structure SSEMessage where
  event : Option Str
  data : Str
  id : Option Str
  retry : Option Nat

def eventTag : Str := ['e', 'v', 'e', 'n', 't', ':', ' ']
def idTag : Str := ['i', 'd', ':', ' ']
def retryTag : Str := ['r', 'e', 't', 'r', 'y', ':', ' ']
def dataTag : Str := ['d', 'a', 't', 'a', ':', ' ']

/-- The event: header line of formatSSEMessage; a JS-falsy event name
(absent or empty) produces no line. -/
def eventBlock (ev : Option Str) : Str :=
  match ev with
  | some e => if e.isEmpty then [] else eventTag ++ e ++ ['\n']
  | none => []

/-- The id: header line of formatSSEMessage; a JS-falsy id produces no line. -/
def idBlock (i : Option Str) : Str :=
  match i with
  | some s => if s.isEmpty then [] else idTag ++ s ++ ['\n']
  | none => []

/-- The retry: header line of formatSSEMessage; a JS-falsy retry (absent or
the number 0) produces no line. -/
def retryBlock (r : Option Nat) : Str :=
  match r with
  | some n => if n = 0 then [] else retryTag ++ natStr n ++ ['\n']
  | none => []

/-- The data: lines of formatSSEMessage: the payload text is split on LF
and each segment becomes its own data: line. -/
def dataBlock (d : Str) : Str :=
  ((splitSep '\n' d).map (fun seg => dataTag ++ seg ++ ['\n'])).flatten

/-- SSEManager.formatSSEMessage: optional event/id/retry header lines, one
data: line per LF-separated segment of the payload text, and the
terminating blank line. -/
def formatSSEMessage (m : SSEMessage) : Str :=
  eventBlock m.event ++ (idBlock m.id ++ (retryBlock m.retry ++ (dataBlock m.data ++ ['\n'])))

/-- Default event type of the client parser. -/
def msgDefault : Str := ['m', 'e', 's', 's', 'a', 'g', 'e']

/-- The line loop of parseSSEMessage (use-sse.ts): accumulator is
(eventType, data, id); an event:/data:/id: line overwrites the
corresponding component — in particular each data: line REPLACES the
previous one (data = line.slice(6)), it is not joined with a newline. -/
def parseFold : List Str → Str × Str × Str → Str × Str × Str
  | [], acc => acc
  | line :: rest, (et, d, i) =>
    if strStarts eventTag line then parseFold rest (line.drop 7, d, i)
    else if strStarts dataTag line then parseFold rest (et, line.drop 6, i)
    else if strStarts idTag line then parseFold rest (et, d, line.drop 4)
    else parseFold rest (et, d, i)

/-- The event record the client builds from one wire record (the wall-clock
timestamp field is omitted). -/
structure SSEEventData where
  type : Str
  data : Json
  id : Option Str

/-- use-sse.ts parseSSEMessage, parameterised by the platform JSON parser
(JSON.parse, which is not part of this repository): split the record into
lines, fold the line prefixes, then JSON-parse the accumulated data text.
Empty data text or a JSON parse error yields null. -/
def parseSSEMessage (jsonParse : Str → Option Json) (text : Str) : Option SSEEventData :=
  let acc := parseFold (splitSep '\n' text) (msgDefault, [], [])
  if acc.2.1.isEmpty then none
  else
    match jsonParse acc.2.1 with
    | some v =>
      some { type := acc.1, data := v, id := if acc.2.2.isEmpty then none else some acc.2.2 }
    | none => none

/-- Whitespace test backing the JS trim-nonempty check of the read loop. -/
def isWsChar (c : Char) : Bool :=
  if c = ' ' then true else if c = '\n' then true else if c = '\t' then true
  else if c = '\r' then true else false

/-- A record is skipped by the read loop when trim() leaves nothing. -/
def isBlank (s : Str) : Bool := s.all isWsChar

/-- The read loop of the client applied to one complete buffer: split the
buffer on blank lines, keep the trailing incomplete piece as the new
buffer, parse every non-blank record and collect the decoded events. -/
def processBuffer (jsonParse : Str → Option Json) (buffer : Str) :
    List SSEEventData × Str :=
  let messages := splitNN buffer
  let rest := messages.getLast?.getD []
  let evs := messages.dropLast.foldl
    (fun acc msg =>
      if isBlank msg then acc
      else
        match parseSSEMessage jsonParse msg with
        | some e => acc ++ [e]
        | none => acc) []
  (evs, rest)

/-- Observer for the encoder claims: the data: lines of an encoded record. -/
def dataLines (s : Str) : List Str :=
  (splitSep '\n' s).filter (fun l => strStarts dataTag l)

theorem newline_not_mem_dataTag_append (s : Str) (hs : '\n' ∉ s) : '\n' ∉ dataTag ++ s := by
  intro hm
  rcases List.mem_append.mp hm with hm | hm
  · revert hm; decide
  · exact hs hm

theorem strStarts_dataTag_self (s : Str) : strStarts dataTag (dataTag ++ s) = true := rfl

theorem splitSep_data_cons (s F : Str) (hs : '\n' ∉ s) :
    splitSep '\n' (dataTag ++ (s ++ ('\n' :: F))) = (dataTag ++ s) :: splitSep '\n' F := by
  have h1 : dataTag ++ (s ++ ('\n' :: F)) = (dataTag ++ s) ++ ('\n' :: F) :=
    (List.append_assoc _ _ _).symm
  rw [h1, splitSep_append_sep '\n' _ _ (newline_not_mem_dataTag_append s hs)]

theorem dataLines_skip_line (tag h rest : Str) (hnl : '\n' ∉ tag ++ h)
    (hpf : strStarts dataTag (tag ++ h) = false) :
    dataLines (tag ++ (h ++ ('\n' :: rest))) = dataLines rest := by
  unfold dataLines
  have h1 : tag ++ (h ++ ('\n' :: rest)) = (tag ++ h) ++ ('\n' :: rest) :=
    (List.append_assoc _ _ _).symm
  rw [h1, splitSep_append_sep '\n' _ _ hnl, List.filter_cons]
  simp [hpf]

theorem dataLines_datablock (segs : List Str) (hseg : ∀ s ∈ segs, '\n' ∉ s) :
    dataLines ((segs.map (fun seg => dataTag ++ seg ++ ['\n'])).flatten ++ ['\n']) =
      segs.map (fun seg => dataTag ++ seg) := by
  induction segs with
  | nil =>
    simp only [List.map_nil, List.flatten_nil, List.nil_append]
    decide
  | cons s segs ih =>
    have hs : '\n' ∉ s := hseg s (List.mem_cons_self _ _)
    have ih' := ih (fun t ht => hseg t (List.mem_cons_of_mem _ ht))
    unfold dataLines at ih' ⊢
    simp only [List.map_cons, List.flatten_cons, List.append_assoc, List.singleton_append, List.cons_append]
    rw [splitSep_data_cons s _ hs, List.filter_cons]
    simp only [strStarts_dataTag_self, if_pos, List.nil_append]
    congr 1

theorem datablock_concat (segs : List Str) (hne : segs ≠ []) :
    ∃ Y, (segs.map (fun seg => dataTag ++ seg ++ ['\n'])).flatten ++ ['\n'] =
      Y ++ ['\n', '\n'] := by
  induction segs with
  | nil => exact absurd rfl hne
  | cons s segs ih =>
    cases segs with
    | nil =>
      refine ⟨dataTag ++ s, ?_⟩
      simp [List.append_assoc]
    | cons t rest =>
      rcases ih (by simp) with ⟨Y', hY'⟩
      refine ⟨(dataTag ++ s ++ ['\n']) ++ Y', ?_⟩
      simp only [List.map_cons, List.flatten_cons] at hY' ⊢
      simp only [List.append_assoc] at hY' ⊢
      rw [hY']

theorem reverse_take_two (W Z : Str) (h : Z = W ++ ['\n', '\n']) :
    Z.reverse.take 2 = ['\n', '\n'] := by
  subst h
  simp

theorem newline_not_mem_append (t u : Str) (h1 : '\n' ∉ t) (h2 : '\n' ∉ u) :
    '\n' ∉ t ++ u := by
  intro hm
  rcases List.mem_append.mp hm with hm | hm
  exacts [h1 hm, h2 hm]

theorem newline_not_mem_natStr (n : Nat) : '\n' ∉ natStr n :=
  newline_not_mem_natStrAux (n + 1) n

theorem dataLines_eventBlock (ev : Option Str) (he : ∀ e, ev = some e → '\n' ∉ e)
    (rest : Str) : dataLines (eventBlock ev ++ rest) = dataLines rest := by
  rcases ev with _ | e
  · simp [eventBlock]
  · by_cases hne : e.isEmpty
    · simp [eventBlock, hne]
    · have hb : eventBlock (some e) ++ rest = eventTag ++ (e ++ ('\n' :: rest)) := by
        simp [eventBlock, hne, List.append_assoc]
      rw [hb, dataLines_skip_line eventTag e rest
        (newline_not_mem_append _ _ (by decide) (he e rfl)) rfl]

theorem dataLines_idBlock (i : Option Str) (hi : ∀ s, i = some s → '\n' ∉ s)
    (rest : Str) : dataLines (idBlock i ++ rest) = dataLines rest := by
  rcases i with _ | s
  · simp [idBlock]
  · by_cases hne : s.isEmpty
    · simp [idBlock, hne]
    · have hb : idBlock (some s) ++ rest = idTag ++ (s ++ ('\n' :: rest)) := by
        simp [idBlock, hne, List.append_assoc]
      rw [hb, dataLines_skip_line idTag s rest
        (newline_not_mem_append _ _ (by decide) (hi s rfl)) rfl]

theorem dataLines_retryBlock (r : Option Nat) (rest : Str) :
    dataLines (retryBlock r ++ rest) = dataLines rest := by
  rcases r with _ | n
  · simp [retryBlock]
  · by_cases hz : n = 0
    · simp [retryBlock, hz]
    · have hb : retryBlock (some n) ++ rest = retryTag ++ (natStr n ++ ('\n' :: rest)) := by
        simp [retryBlock, hz, List.append_assoc]
      rw [hb, dataLines_skip_line retryTag (natStr n) rest
        (newline_not_mem_append _ _ (by decide) (newline_not_mem_natStr n)) rfl]

theorem dataLines_dataBlock (d : Str) :
    dataLines (dataBlock d ++ ['\n']) = (splitSep '\n' d).map (fun seg => dataTag ++ seg) := by
  unfold dataBlock
  exact dataLines_datablock (splitSep '\n' d) (fun s hs => not_mem_of_mem_splitSep '\n' d s hs)

theorem dataBlock_concat (d : Str) :
    ∃ Y, dataBlock d ++ ['\n'] = Y ++ ['\n', '\n'] := by
  unfold dataBlock
  exact datablock_concat (splitSep '\n' d) (splitSep_ne_nil '\n' d)

/-- C9 helper: the data: lines of an encoded record are exactly the
LF-separated segments of the payload text, each behind the data: tag. -/
theorem dataLines_format (m : SSEMessage)
    (he : ∀ e, m.event = some e → '\n' ∉ e)
    (hi : ∀ s, m.id = some s → '\n' ∉ s) :
    dataLines (formatSSEMessage m) = (splitSep '\n' m.data).map (fun seg => dataTag ++ seg) := by
  unfold formatSSEMessage
  rw [dataLines_eventBlock m.event he, dataLines_idBlock m.id hi, dataLines_retryBlock m.retry,
    dataLines_dataBlock]

theorem format_ends_blank (m : SSEMessage) :
    (formatSSEMessage m).reverse.take 2 = ['\n', '\n'] := by
  rcases dataBlock_concat m.data with ⟨Y, hY⟩
  refine reverse_take_two (eventBlock m.event ++ (idBlock m.id ++ (retryBlock m.retry ++ Y))) _ ?_
  unfold formatSSEMessage
  rw [hY]
  simp [List.append_assoc]

/-- C9: for every payload, the encoder emits exactly
1 + (number of LF characters in the JSON text of the payload) data: lines —
each LF-separated segment of the JSON text becomes its own data: line —
followed by the mandatory blank line that terminates the record.  The
event/id header strings are single-line (they are wire tokens; a newline
inside them would break the line framing itself). -/
theorem formatSSEMessage_data_lines (m : SSEMessage)
    (he : ∀ e, m.event = some e → '\n' ∉ e)
    (hi : ∀ s, m.id = some s → '\n' ∉ s) :
    dataLines (formatSSEMessage m) = (splitSep '\n' m.data).map (fun seg => dataTag ++ seg)
    ∧ (dataLines (formatSSEMessage m)).length = 1 + m.data.count '\n'
    ∧ (formatSSEMessage m).reverse.take 2 = ['\n', '\n'] := by
  refine ⟨dataLines_format m he hi, ?_, format_ends_blank m⟩
  rw [dataLines_format m he hi, List.length_map, length_splitSep]
  omega

/-- C9 witness: a payload whose JSON text contains one newline produces
exactly two data: lines. -/
theorem formatSSEMessage_data_lines_witness :
    (dataLines (formatSSEMessage ⟨some ['t'], ['a', '\n', 'b'], none, some 7⟩)).length = 2 :=
  ((formatSSEMessage_data_lines ⟨some ['t'], ['a', '\n', 'b'], none, some 7⟩
    (fun e h => by cases h; decide) (fun s h => nomatch h)).2.1).trans (by decide)

/-- JSON.parse restricted to the two texts this development queries it at:
the two-line JSON text joined with a newline (valid JSON, the array [1, 2]
pretty-printed over two lines) parses, and the second line alone is a JSON
syntax error. -/
def jsonParse1 : Str → Option Json := fun s =>
  if s = ['[', '1', ',', '\n', '2', ']'] then some (Json.arr [Json.num 1, Json.num 2]) else none

/-- An event whose JSON-encoded data contains a newline, as the spec's
encoding contract contemplates (the payload is JSON-encoded, then split on
LF into several data: lines). -/
def msg1 : SSEMessage := ⟨some ['t'], ['[', '1', ',', '\n', '2', ']'], none, none⟩

/-- C1: the codec does NOT round-trip an event whose JSON-encoded data is
split across several data: lines.  The encoder emits data: lines for the
two segments, but the client parser overwrites data with each data: line
(data = line.slice(6)) instead of joining them with a newline, so only the
last segment survives; JSON-parsing it fails and the whole event is
dropped: the read loop decodes the complete frame to no event at all. -/
theorem sse_multiline_data_lost :
    processBuffer jsonParse1 (formatSSEMessage msg1) = ([], []) ∧
    parseSSEMessage jsonParse1 ((splitNN (formatSSEMessage msg1)).headI) = none ∧
    (parseFold (splitSep '\n' ((splitNN (formatSSEMessage msg1)).headI))
      (msgDefault, [], [])).2.1 = ['2', ']'] :=
  ⟨rfl, rfl, rfl⟩

/-- One open connection (SSEConnection of types.ts).  The stream controller
is not part of the registry state; write success is abstracted where it
matters (sendEvent).  Metadata values are modelled as strings compared
with JS strict equality. -/
structure SSEConnection where
  id : String
  userId : Option String
  sessionId : Option String
  lastPing : Nat
  metadata : Option (List (String × String))
deriving DecidableEq, Repr

/-- The routing selector (ConnectionFilter of types.ts).  A present
metadata field models any metadata object, including the empty one
(objects are always JS-truthy). -/
structure ConnectionFilter where
  userId : Option String
  sessionId : Option String
  connectionId : Option String
  metadata : Option (List (String × String))
deriving DecidableEq, Repr

/-- JS truthiness of an optional string: undefined and the empty string
are falsy. -/
def strTruthy : Option String → Bool
  | some s => !(s.isEmpty)
  | none => false

/-- JS Map.set: replace the value in place when the key is present, append
otherwise (Map iteration preserves insertion order). -/
def mapSet {β : Type} (l : List (String × β)) (k : String) (v : β) : List (String × β) :=
  if (l.lookup k).isSome then l.map (fun p => if p.1 = k then (k, v) else p) else l ++ [(k, v)]

/-- JS Map.delete. -/
def mapDelete {β : Type} (l : List (String × β)) (k : String) : List (String × β) :=
  l.filter (fun p => p.1 != k)

/-- JS Set.add. -/
def setAdd (s : List String) (a : String) : List String :=
  if a ∈ s then s else s ++ [a]

/-- JS Set.delete. -/
def setDelete (s : List String) (a : String) : List String :=
  s.filter (fun b => b != a)

/-- The secondary-index insertion of SSEConnectionStore.addConnection: make
an empty set for an absent key, then add the connection id to the set. -/
def indexAdd (idx : List (String × List String)) (k cid : String) :
    List (String × List String) :=
  match idx.lookup k with
  | some st => mapSet idx k (setAdd st cid)
  | none => mapSet idx k (setAdd [] cid)

/-- The secondary-index removal of SSEConnectionStore.removeConnection:
delete the id from the key's set and drop the key when its set empties. -/
def indexRemove (idx : List (String × List String)) (k cid : String) :
    List (String × List String) :=
  match idx.lookup k with
  | some st =>
    let st' := setDelete st cid
    if st'.isEmpty then mapDelete idx k else mapSet idx k st'
  | none => idx

/-- SSEConnectionStore: the primary connection map and the two secondary
indexes, userId to set of connection ids and sessionId to set of ids. -/
structure SSEConnectionStore where
  connections : List (String × SSEConnection)
  userConnections : List (String × List String)
  sessionConnections : List (String × List String)
deriving DecidableEq, Repr

def emptyStore : SSEConnectionStore := ⟨[], [], []⟩

/-- SSEConnectionStore.addConnection: insert into the primary map and into
each secondary index whose field is JS-truthy. -/
def SSEConnectionStore.addConnection (s : SSEConnectionStore) (c : SSEConnection) :
    SSEConnectionStore :=
  { connections := mapSet s.connections c.id c
    userConnections :=
      match c.userId with
      | some u => if u.isEmpty then s.userConnections else indexAdd s.userConnections u c.id
      | none => s.userConnections
    sessionConnections :=
      match c.sessionId with
      | some v => if v.isEmpty then s.sessionConnections else indexAdd s.sessionConnections v c.id
      | none => s.sessionConnections }

/-- SSEConnectionStore.removeConnection: false for an unknown id; otherwise
delete from the primary map, clean both secondary indexes (dropping a key
whose set empties) and return true. -/
def SSEConnectionStore.removeConnection (s : SSEConnectionStore) (cid : String) :
    SSEConnectionStore × Bool :=
  match s.connections.lookup cid with
  | none => (s, false)
  | some c =>
    ({ connections := mapDelete s.connections cid
       userConnections :=
         match c.userId with
         | some u => if u.isEmpty then s.userConnections else indexRemove s.userConnections u cid
         | none => s.userConnections
       sessionConnections :=
         match c.sessionId with
         | some v =>
           if v.isEmpty then s.sessionConnections else indexRemove s.sessionConnections v cid
         | none => s.sessionConnections }, true)

def SSEConnectionStore.getConnection (s : SSEConnectionStore) (cid : String) :
    Option SSEConnection :=
  s.connections.lookup cid

/-- SSEConnectionStore.updateLastPing: refresh lastPing of a live
connection in place, report whether the id was known. -/
def SSEConnectionStore.updateLastPing (s : SSEConnectionStore) (cid : String) (now : Nat) :
    SSEConnectionStore × Bool :=
  match s.connections.lookup cid with
  | some c =>
    ({ s with connections := mapSet s.connections cid { c with lastPing := now } }, true)
  | none => (s, false)

/-- SSEConnectionStore.getStaleConnections: every connection whose lastPing
is strictly before now minus the timeout (JS number subtraction, modelled
on the integers). -/
def SSEConnectionStore.getStaleConnections (s : SSEConnectionStore) (timeoutMs now : Nat) :
    List SSEConnection :=
  (s.connections.map (fun p => p.2)).filter
    (fun c => (c.lastPing : Int) < (now : Int) - (timeoutMs : Int))

/-- SSEConnectionStore.clear. -/
def SSEConnectionStore.clear (_ : SSEConnectionStore) : SSEConnectionStore := emptyStore

/-- The metadata post-filter of getConnections: a connection with no
metadata fails any present predicate; otherwise every (key, value) pair of
the predicate must strictly equal the connection's metadata entry. -/
def metaMatch (md : List (String × String)) (c : SSEConnection) : Bool :=
  match c.metadata with
  | none => false
  | some cm => md.all (fun kv => cm.lookup kv.1 == some kv.2)

/-- Steps 2-6 of getConnections for a filter whose connectionId is falsy:
resolve the userId axis (absent user returns empty), then the sessionId
axis (intersecting when ids were already collected, absent session returns
empty), fall back to all ids when no axis restricted the set, and
materialise through the primary map, skipping vanished ids. -/
def SSEConnectionStore.getConnectionsBase (s : SSEConnectionStore) (f : ConnectionFilter) :
    List SSEConnection :=
  match
    (if strTruthy f.userId then
      match s.userConnections.lookup (f.userId.getD "") with
      | some us => some us
      | none => none
    else some []) with
  | none => []
  | some ids1 =>
    match
      (if strTruthy f.sessionId then
        match s.sessionConnections.lookup (f.sessionId.getD "") with
        | some ss => some (if ids1.isEmpty then ss else ids1.filter (fun i => ss.contains i))
        | none => none
      else some ids1) with
    | none => []
    | some ids2 =>
      let ids3 :=
        if ids2.isEmpty && !strTruthy f.userId && !strTruthy f.sessionId then
          s.connections.map (fun p => p.1)
        else ids2
      ids3.filterMap (fun i => s.connections.lookup i)

/-- SSEConnectionStore.getConnections: no filter returns every connection;
a JS-truthy connectionId short-circuits to the single match (or empty,
skipping the metadata post-filter); otherwise the index pipeline runs and
a present metadata predicate post-filters the result. -/
def SSEConnectionStore.getConnections (s : SSEConnectionStore) :
    Option ConnectionFilter → List SSEConnection
  | none => s.connections.map (fun p => p.2)
  | some f =>
    if strTruthy f.connectionId then
      match s.connections.lookup (f.connectionId.getD "") with
      | some c => [c]
      | none => []
    else
      match f.metadata with
      | some md => (s.getConnectionsBase f).filter (metaMatch md)
      | none => s.getConnectionsBase f
theorem lookup_eq_none_iff {β : Type} (l : List (String × β)) (k : String) :
    l.lookup k = none ↔ ∀ p ∈ l, p.1 ≠ k := by
  induction l with
  | nil => simp
  | cons q t ih =>
    rcases q with ⟨k0, v0⟩
    by_cases h : k = k0
    · subst h
      simp [List.lookup_cons]
    · rw [List.lookup_cons]
      have hb : (k == k0) = false := by simp [h]
      simp only [hb]
      rw [ih]
      constructor
      · intro ha p hp
        rcases List.mem_cons.mp hp with hp | hp
        · subst hp; simpa using fun hk => h hk.symm
        · exact ha p hp
      · intro ha p hp
        exact ha p (List.mem_cons_of_mem _ hp)

theorem lookup_isSome_iff {β : Type} (l : List (String × β)) (k : String) :
    (l.lookup k).isSome = true ↔ ∃ p ∈ l, p.1 = k := by
  rcases hl : l.lookup k with _ | v
  · simp only [Option.isSome_none]
    rw [lookup_eq_none_iff] at hl
    constructor
    · intro h; cases h
    · rintro ⟨p, hp, hpk⟩
      exact absurd hpk (hl p hp)
  · simp only [Option.isSome_some, true_iff]
    induction l with
    | nil => simp at hl
    | cons q t ih =>
      rcases q with ⟨k0, v0⟩
      by_cases h : k = k0
      · exact ⟨(k0, v0), List.mem_cons_self _ _, h.symm⟩
      · rw [List.lookup_cons] at hl
        have hb : (k == k0) = false := by simp [h]
        simp only [hb] at hl
        rcases ih hl with ⟨p, hp, hpk⟩
        exact ⟨p, List.mem_cons_of_mem _ hp, hpk⟩

theorem lookup_mem {β : Type} (l : List (String × β)) (k : String) (v : β)
    (h : l.lookup k = some v) : (k, v) ∈ l := by
  induction l with
  | nil => simp at h
  | cons q t ih =>
    rcases q with ⟨k0, v0⟩
    by_cases hk : k = k0
    · subst hk
      simp [List.lookup_cons] at h
      subst h
      exact List.mem_cons_self _ _
    · rw [List.lookup_cons] at h
      have hb : (k == k0) = false := by simp [hk]
      simp only [hb] at h
      exact List.mem_cons_of_mem _ (ih h)

theorem mem_lookup_of_nodup {β : Type} (l : List (String × β)) (k : String) (v : β)
    (hnd : (l.map (fun p => p.1)).Nodup) (h : (k, v) ∈ l) : l.lookup k = some v := by
  induction l with
  | nil => simp at h
  | cons q t ih =>
    rcases q with ⟨k0, v0⟩
    simp only [List.map_cons, List.nodup_cons] at hnd
    rcases List.mem_cons.mp h with h2 | h2
    · cases h2
      simp [List.lookup_cons]
    · have hk : k ≠ k0 := by
        rintro rfl
        exact hnd.1 (List.mem_map.mpr ⟨(k, v), h2, rfl⟩)
      rw [List.lookup_cons]
      have hb : (k == k0) = false := beq_eq_false_iff_ne.mpr hk
      simp only [hb]
      exact ih hnd.2 h2

theorem lookup_mapReplace_self {β : Type} (l : List (String × β)) (k : String) (v : β)
    (hs : ∃ p ∈ l, p.1 = k) :
    (l.map (fun p => if p.1 = k then (k, v) else p)).lookup k = some v := by
  induction l with
  | nil => simp at hs
  | cons q t ih =>
    by_cases hq : q.1 = k
    · simp only [List.map_cons, if_pos hq]
      simp [List.lookup_cons]
    · simp only [List.map_cons, if_neg hq]
      rw [List.lookup_cons]
      have hb : (k == q.1) = false := beq_eq_false_iff_ne.mpr (Ne.symm hq)
      simp only [hb]
      apply ih
      rcases hs with ⟨p, hp, hpk⟩
      rcases List.mem_cons.mp hp with hp | hp
      · subst hp; exact absurd hpk hq
      · exact ⟨p, hp, hpk⟩

theorem lookup_mapReplace_ne {β : Type} (l : List (String × β)) (k a : String) (v : β)
    (h : a ≠ k) :
    (l.map (fun p => if p.1 = k then (k, v) else p)).lookup a = l.lookup a := by
  induction l with
  | nil => simp
  | cons q t ih =>
    by_cases hq : q.1 = k
    · simp only [List.map_cons, if_pos hq]
      rw [List.lookup_cons, List.lookup_cons]
      have hb1 : (a == k) = false := beq_eq_false_iff_ne.mpr h
      have hb2 : (a == q.1) = false := beq_eq_false_iff_ne.mpr (hq ▸ h)
      simp only [hb1, hb2]
      exact ih
    · simp only [List.map_cons, if_neg hq]
      rw [List.lookup_cons, List.lookup_cons]
      rcases hab : a == q.1 with _ | _
      · simp only []
        exact ih
      · rfl

theorem lookup_mapSet_self {β : Type} (l : List (String × β)) (k : String) (v : β) :
    (mapSet l k v).lookup k = some v := by
  unfold mapSet
  split
  · rename_i hs
    exact lookup_mapReplace_self l k v ((lookup_isSome_iff l k).mp hs)
  · rename_i hs
    rw [Option.not_isSome_iff_eq_none] at hs
    rw [List.lookup_append, hs]
    simp [List.lookup_cons]

theorem lookup_mapSet_ne {β : Type} (l : List (String × β)) (k a : String) (v : β)
    (h : a ≠ k) : (mapSet l k v).lookup a = l.lookup a := by
  unfold mapSet
  split
  · exact lookup_mapReplace_ne l k a v h
  · rw [List.lookup_append]
    rcases hla : l.lookup a with _ | w
    · have hb : (a == k) = false := by simp [h]
      simp [List.lookup_cons, hb]
    · rfl

theorem mapSet_absent {β : Type} (l : List (String × β)) (k : String) (v : β)
    (h : l.lookup k = none) : mapSet l k v = l ++ [(k, v)] := by
  simp [mapSet, h]
theorem mem_mapSet_of_ne {β : Type} (l : List (String × β)) (k : String) (v : β)
    (p : String × β) (hp : p ∈ l) (hpk : p.1 ≠ k) : p ∈ mapSet l k v := by
  unfold mapSet
  split
  · exact List.mem_map.mpr ⟨p, hp, by simp [hpk]⟩
  · exact List.mem_append_left _ hp

theorem mem_mapSet_self {β : Type} (l : List (String × β)) (k : String) (v : β) :
    (k, v) ∈ mapSet l k v := by
  unfold mapSet
  split
  · rename_i hs
    rcases (lookup_isSome_iff l k).mp hs with ⟨p, hp, hpk⟩
    exact List.mem_map.mpr ⟨p, hp, by simp [hpk]⟩
  · exact List.mem_append_right _ (List.mem_singleton.mpr rfl)

theorem mem_mapSet_elim {β : Type} (l : List (String × β)) (k : String) (v : β)
    (p : String × β) (hp : p ∈ mapSet l k v) : p = (k, v) ∨ (p ∈ l ∧ p.1 ≠ k) := by
  unfold mapSet at hp
  split at hp
  · rcases List.mem_map.mp hp with ⟨q, hq, hqe⟩
    by_cases hqk : q.1 = k
    · left
      rw [if_pos hqk] at hqe
      exact hqe.symm
    · right
      rw [if_neg hqk] at hqe
      subst hqe
      exact ⟨hq, hqk⟩
  · rename_i hs
    rcases List.mem_append.mp hp with hp | hp
    · right
      refine ⟨hp, ?_⟩
      intro hpk
      rw [Option.not_isSome_iff_eq_none] at hs
      exact (lookup_eq_none_iff l k).mp hs p hp hpk
    · left
      exact List.mem_singleton.mp hp

theorem keys_mapSet_present {β : Type} (l : List (String × β)) (k : String) (v : β)
    (h : (l.lookup k).isSome = true) :
    (mapSet l k v).map (fun p => p.1) = l.map (fun p => p.1) := by
  unfold mapSet
  rw [if_pos h, List.map_map]
  apply List.map_congr_left
  intro p _
  by_cases hpk : p.1 = k
  · simp [hpk]
  · simp [hpk]

theorem keys_mapSet_absent {β : Type} (l : List (String × β)) (k : String) (v : β)
    (h : l.lookup k = none) :
    (mapSet l k v).map (fun p => p.1) = l.map (fun p => p.1) ++ [k] := by
  rw [mapSet_absent l k v h]
  simp

theorem mem_mapDelete {β : Type} (l : List (String × β)) (k : String) (p : String × β) :
    p ∈ mapDelete l k ↔ p ∈ l ∧ p.1 ≠ k := by
  unfold mapDelete
  rw [List.mem_filter]
  simp [bne_iff_ne]

theorem lookup_mapDelete_self {β : Type} (l : List (String × β)) (k : String) :
    (mapDelete l k).lookup k = none := by
  rw [lookup_eq_none_iff]
  intro p hp
  exact ((mem_mapDelete l k p).mp hp).2

theorem lookup_mapDelete_ne {β : Type} (l : List (String × β)) (k a : String)
    (h : a ≠ k) : (mapDelete l k).lookup a = l.lookup a := by
  induction l with
  | nil => rfl
  | cons q t ih =>
    rcases q with ⟨k0, v0⟩
    unfold mapDelete
    rw [List.filter_cons]
    by_cases hk : k0 = k
    · subst hk
      have hb : (a == k0) = false := by simp [h]
      simp only [bne_self_eq_false, if_neg Bool.false_ne_true]
      rw [List.lookup_cons]
      simp only [hb]
      exact ih
    · have hb2 : (k0 != k) = true := by simp [hk]
      rw [if_pos hb2, List.lookup_cons, List.lookup_cons]
      rcases hab : a == k0 with _ | _
      · simp only []
        exact ih
      · rfl

theorem keys_mapDelete_nodup {β : Type} (l : List (String × β)) (k : String)
    (h : (l.map (fun p => p.1)).Nodup) : ((mapDelete l k).map (fun p => p.1)).Nodup :=
  ((List.filter_sublist l).map (fun p => p.1)).nodup h

theorem mem_setAdd (s : List String) (a b : String) :
    b ∈ setAdd s a ↔ b ∈ s ∨ b = a := by
  unfold setAdd
  split
  · rename_i h
    constructor
    · exact Or.inl
    · rintro (hb | rfl)
      · exact hb
      · exact h
  · simp

theorem setAdd_nodup (s : List String) (a : String) (h : s.Nodup) : (setAdd s a).Nodup := by
  unfold setAdd
  split
  · exact h
  · rename_i ha
    simp [List.nodup_append, h, ha]

theorem setAdd_ne_nil (s : List String) (a : String) : setAdd s a ≠ [] := by
  unfold setAdd
  split
  · rename_i h
    exact List.ne_nil_of_mem h
  · simp

theorem mem_setDelete (s : List String) (a b : String) :
    b ∈ setDelete s a ↔ b ∈ s ∧ b ≠ a := by
  unfold setDelete
  rw [List.mem_filter]
  simp [bne_iff_ne]

theorem setDelete_nodup (s : List String) (a : String) (h : s.Nodup) :
    (setDelete s a).Nodup := (List.filter_sublist s).nodup h

theorem lookup_indexAdd_self (idx : List (String × List String)) (k cid : String) :
    (indexAdd idx k cid).lookup k = some (setAdd ((idx.lookup k).getD []) cid) := by
  unfold indexAdd
  rcases h : idx.lookup k with _ | st
  · simp [lookup_mapSet_self]
  · simp [lookup_mapSet_self]

theorem lookup_indexAdd_ne (idx : List (String × List String)) (k cid a : String)
    (h : a ≠ k) : (indexAdd idx k cid).lookup a = idx.lookup a := by
  unfold indexAdd
  rcases hk : idx.lookup k with _ | st
  · exact lookup_mapSet_ne idx k a _ h
  · exact lookup_mapSet_ne idx k a _ h

theorem keys_indexAdd_nodup (idx : List (String × List String)) (k cid : String)
    (h : (idx.map (fun q => q.1)).Nodup) :
    ((indexAdd idx k cid).map (fun q => q.1)).Nodup := by
  unfold indexAdd
  rcases hk : idx.lookup k with _ | st
  · rw [show mapSet idx k (setAdd [] cid) = idx ++ [(k, setAdd [] cid)] from mapSet_absent _ _ _ hk]
    rw [List.map_append]
    simp only [List.map_cons, List.map_nil]
    rw [List.nodup_append]
    refine ⟨h, List.nodup_singleton _, ?_⟩
    intro a ha hb
    rcases List.mem_singleton.mp hb with rfl
    rcases List.mem_map.mp ha with ⟨p, hp, hpa⟩
    exact (lookup_eq_none_iff idx a).mp hk p hp hpa
  · rw [keys_mapSet_present]
    · exact h
    · simp [hk]

theorem mem_indexAdd_elim (idx : List (String × List String)) (k cid : String)
    (q : String × List String) (hq : q ∈ indexAdd idx k cid) :
    q = (k, setAdd ((idx.lookup k).getD []) cid) ∨ (q ∈ idx ∧ q.1 ≠ k) := by
  unfold indexAdd at hq
  rcases hk : idx.lookup k with _ | st
  · rw [hk] at hq
    rcases mem_mapSet_elim _ _ _ _ hq with h | h
    · left; simp [hk, h]
    · right; exact h
  · rw [hk] at hq
    rcases mem_mapSet_elim _ _ _ _ hq with h | h
    · left; simp [hk, h]
    · right; exact h

theorem mem_indexAdd_of_ne (idx : List (String × List String)) (k cid : String)
    (q : String × List String) (hq : q ∈ idx) (hne : q.1 ≠ k) :
    q ∈ indexAdd idx k cid := by
  unfold indexAdd
  rcases hk : idx.lookup k with _ | st
  · exact mem_mapSet_of_ne _ _ _ _ hq hne
  · exact mem_mapSet_of_ne _ _ _ _ hq hne

theorem mem_indexAdd_self (idx : List (String × List String)) (k cid : String) :
    (k, setAdd ((idx.lookup k).getD []) cid) ∈ indexAdd idx k cid := by
  unfold indexAdd
  rcases hk : idx.lookup k with _ | st
  · simpa [hk] using mem_mapSet_self idx k (setAdd [] cid)
  · simpa [hk] using mem_mapSet_self idx k (setAdd st cid)

theorem keys_indexRemove_nodup (idx : List (String × List String)) (k cid : String)
    (h : (idx.map (fun q => q.1)).Nodup) :
    ((indexRemove idx k cid).map (fun q => q.1)).Nodup := by
  unfold indexRemove
  rcases hk : idx.lookup k with _ | st
  · exact h
  · by_cases he : (setDelete st cid).isEmpty
    · simp only [he, if_pos]
      exact keys_mapDelete_nodup idx k h
    · simp only [he, if_neg Bool.false_ne_true]
      rw [keys_mapSet_present]
      · exact h
      · simp [hk]

theorem mem_indexRemove_elim (idx : List (String × List String)) (k cid : String)
    (q : String × List String) (hq : q ∈ indexRemove idx k cid) :
    (q ∈ idx ∧ q.1 ≠ k) ∨
      (∃ st, idx.lookup k = some st ∧ q = (k, setDelete st cid) ∧ setDelete st cid ≠ []) := by
  unfold indexRemove at hq
  rcases hk : idx.lookup k with _ | st
  · rw [hk] at hq
    left
    exact ⟨hq, (lookup_eq_none_iff idx k).mp hk q hq⟩
  · rw [hk] at hq
    by_cases he : (setDelete st cid).isEmpty
    · simp only [he, if_pos] at hq
      left
      exact (mem_mapDelete _ _ _).mp hq
    · simp only [he, if_neg Bool.false_ne_true] at hq
      rcases mem_mapSet_elim _ _ _ _ hq with h | h
      · right
        refine ⟨st, rfl, h, ?_⟩
        intro hnil
        rw [hnil] at he
        simp at he
      · left
        exact h

theorem mem_indexRemove_of_ne (idx : List (String × List String)) (k cid : String)
    (q : String × List String) (hq : q ∈ idx) (hne : q.1 ≠ k) :
    q ∈ indexRemove idx k cid := by
  unfold indexRemove
  rcases hk : idx.lookup k with _ | st
  · exact hq
  · by_cases he : (setDelete st cid).isEmpty
    · simp only [he, if_pos]
      exact (mem_mapDelete _ _ _).mpr ⟨hq, hne⟩
    · simp only [he, if_neg Bool.false_ne_true]
      exact mem_mapSet_of_ne _ _ _ _ hq hne

theorem mem_indexRemove_self (idx : List (String × List String)) (k cid : String)
    (st : List String) (hst : idx.lookup k = some st) (hne : setDelete st cid ≠ []) :
    (k, setDelete st cid) ∈ indexRemove idx k cid := by
  unfold indexRemove
  rw [hst]
  have he : (setDelete st cid).isEmpty = false := by
    rcases hd : setDelete st cid with _ | ⟨x, t⟩
    · exact absurd hd hne
    · simp
  simp only [he, if_neg Bool.false_ne_true]
  exact mem_mapSet_self idx k (setDelete st cid)

/-- The registry invariant restricted to one secondary index (proj is the
indexed field, userId or sessionId): keys are distinct and JS-truthy,
every set is non-empty and duplicate-free, every id in a set belongs to a
primary connection whose indexed field is exactly that key, and every
primary connection with a truthy indexed field appears in its key's set. -/
def idxInv (conns : List (String × SSEConnection)) (proj : SSEConnection → Option String)
    (idx : List (String × List String)) : Prop :=
  (idx.map (fun q => q.1)).Nodup ∧
  (∀ q ∈ idx, q.1.isEmpty = false ∧ q.2 ≠ [] ∧ q.2.Nodup ∧
    ∀ cid ∈ q.2, ∃ p ∈ conns, p.1 = cid ∧ proj p.2 = some q.1) ∧
  (∀ p ∈ conns, strTruthy (proj p.2) = true →
    ∃ q ∈ idx, some q.1 = proj p.2 ∧ p.1 ∈ q.2)

/-- The registry invariant of SSEConnectionStore: primary keys are distinct
and every stored connection is keyed by its own id; both secondary indexes
satisfy idxInv.  In particular a connection id appears in the primary map
iff it appears in the userId (resp. sessionId) index set whenever that
field is set, and no emptied set is retained. -/
def StoreInv (s : SSEConnectionStore) : Prop :=
  (s.connections.map (fun p => p.1)).Nodup ∧
  (∀ p ∈ s.connections, p.2.id = p.1) ∧
  idxInv s.connections (fun c => c.userId) s.userConnections ∧
  idxInv s.connections (fun c => c.sessionId) s.sessionConnections

/-- The registry states the store operations can build: empty, adding a
connection under a fresh id (the hub mints unique ids), removing any id,
refreshing lastPing, and clear. -/
inductive Reachable : SSEConnectionStore → Prop where
  | empty : Reachable emptyStore
  | add {s : SSEConnectionStore} {c : SSEConnection} : Reachable s →
      s.connections.lookup c.id = none → Reachable (s.addConnection c)
  | remove {s : SSEConnectionStore} (cid : String) : Reachable s →
      Reachable (s.removeConnection cid).1
  | ping {s : SSEConnectionStore} (cid : String) (now : Nat) : Reachable s →
      Reachable (s.updateLastPing cid now).1
  | clearStep {s : SSEConnectionStore} : Reachable s → Reachable s.clear

theorem idxInv_add_skip (conns : List (String × SSEConnection))
    (proj : SSEConnection → Option String) (idx : List (String × List String))
    (cid : String) (c : SSEConnection)
    (h : idxInv conns proj idx) (hproj : strTruthy (proj c) = false) :
    idxInv (conns ++ [(cid, c)]) proj idx := by
  obtain ⟨h1, h2, h3⟩ := h
  refine ⟨h1, ?_, ?_⟩
  · intro q hq
    obtain ⟨hk, hn, hnd, hm⟩ := h2 q hq
    refine ⟨hk, hn, hnd, ?_⟩
    intro cid' hcm
    obtain ⟨p, hp, hp1, hp2⟩ := hm cid' hcm
    exact ⟨p, List.mem_append_left _ hp, hp1, hp2⟩
  · intro p hp ht
    rcases List.mem_append.mp hp with hp | hp
    · exact h3 p hp ht
    · rcases List.mem_singleton.mp hp with rfl
      have ht' : strTruthy (proj c) = true := ht
      rw [hproj] at ht'
      cases ht'

theorem idxInv_add_idx (conns : List (String × SSEConnection))
    (proj : SSEConnection → Option String) (idx : List (String × List String))
    (cid : String) (c : SSEConnection) (u : String)
    (h : idxInv conns proj idx) (hproj : proj c = some u) (hu : u.isEmpty = false) :
    idxInv (conns ++ [(cid, c)]) proj (indexAdd idx u cid) := by
  obtain ⟨h1, h2, h3⟩ := h
  refine ⟨keys_indexAdd_nodup idx u cid h1, ?_, ?_⟩
  · intro q hq
    rcases mem_indexAdd_elim idx u cid q hq with hq' | ⟨hq', hqe⟩
    · subst hq'
      refine ⟨hu, setAdd_ne_nil _ _, ?_, ?_⟩
      · apply setAdd_nodup
        rcases hk : idx.lookup u with _ | st
        · simp
        · simp only [Option.getD_some]
          exact (h2 (u, st) (lookup_mem idx u st hk)).2.2.1
      · intro cid' hcm
        rcases (mem_setAdd _ _ _).mp hcm with hcm | hceq
        · rcases hk : idx.lookup u with _ | st
          · rw [hk] at hcm
            simp at hcm
          · rw [hk] at hcm
            simp only [Option.getD_some] at hcm
            obtain ⟨hk2, hn2, hnd2, hm2⟩ := h2 (u, st) (lookup_mem idx u st hk)
            obtain ⟨p, hp, hp1, hp2⟩ := hm2 cid' hcm
            exact ⟨p, List.mem_append_left _ hp, hp1, hp2⟩
        · refine ⟨(cid, c), List.mem_append_right _ (List.mem_singleton.mpr rfl), hceq.symm, ?_⟩
          show proj c = some u
          exact hproj
    · obtain ⟨hk, hn, hnd, hm⟩ := h2 q hq'
      refine ⟨hk, hn, hnd, ?_⟩
      intro cid' hcm
      obtain ⟨p, hp, hp1, hp2⟩ := hm cid' hcm
      exact ⟨p, List.mem_append_left _ hp, hp1, hp2⟩
  · intro p hp ht
    rcases List.mem_append.mp hp with hp | hp
    · obtain ⟨q, hq, hq1, hq2⟩ := h3 p hp ht
      by_cases hqu : q.1 = u
      · have hlu : idx.lookup u = some q.2 := by
          rw [← hqu]
          exact mem_lookup_of_nodup idx q.1 q.2 h1 (by rwa [Prod.mk.eta])
        refine ⟨(u, setAdd q.2 cid), ?_, ?_, ?_⟩
        · have hm := mem_indexAdd_self idx u cid
          rw [hlu] at hm
          simpa using hm
        · rw [← hqu]
          exact hq1
        · exact (mem_setAdd _ _ _).mpr (Or.inl hq2)
      · exact ⟨q, mem_indexAdd_of_ne idx u cid q hq hqu, hq1, hq2⟩
    · rcases List.mem_singleton.mp hp with rfl
      refine ⟨(u, setAdd ((idx.lookup u).getD []) cid), mem_indexAdd_self idx u cid, ?_, ?_⟩
      · show some u = proj c
        exact hproj.symm
      · exact (mem_setAdd _ _ _).mpr (Or.inr rfl)

theorem idxInv_remove_skip (conns : List (String × SSEConnection))
    (proj : SSEConnection → Option String) (idx : List (String × List String))
    (cid : String) (c : SSEConnection)
    (h : idxInv conns proj idx) (hkeys : (conns.map (fun p => p.1)).Nodup)
    (hc : conns.lookup cid = some c) (hproj : strTruthy (proj c) = false) :
    idxInv (mapDelete conns cid) proj idx := by
  obtain ⟨h1, h2, h3⟩ := h
  refine ⟨h1, ?_, ?_⟩
  · intro q hq
    obtain ⟨hk, hn, hnd, hm⟩ := h2 q hq
    refine ⟨hk, hn, hnd, ?_⟩
    intro cid' hcm
    obtain ⟨p, hp, hp1, hp2⟩ := hm cid' hcm
    have hpne : p.1 ≠ cid := by
      intro hpe
      have hpl : conns.lookup cid = some p.2 := by
        rw [← hpe]
        exact mem_lookup_of_nodup conns p.1 p.2 hkeys (by rwa [Prod.mk.eta])
      rw [hc] at hpl
      have hpc : p.2 = c := (Option.some.inj hpl).symm
      have hcontra : strTruthy (proj c) = true := by
        rw [← hpc, hp2]
        simp [strTruthy, hk]
      rw [hproj] at hcontra
      cases hcontra
    exact ⟨p, (mem_mapDelete _ _ _).mpr ⟨hp, hpne⟩, hp1, hp2⟩
  · intro p hp ht
    exact h3 p ((mem_mapDelete _ _ _).mp hp).1 ht

theorem idxInv_remove_idx (conns : List (String × SSEConnection))
    (proj : SSEConnection → Option String) (idx : List (String × List String))
    (cid : String) (c : SSEConnection) (u : String)
    (h : idxInv conns proj idx) (hkeys : (conns.map (fun p => p.1)).Nodup)
    (hc : conns.lookup cid = some c) (hproj : proj c = some u) :
    idxInv (mapDelete conns cid) proj (indexRemove idx u cid) := by
  obtain ⟨h1, h2, h3⟩ := h
  refine ⟨keys_indexRemove_nodup idx u cid h1, ?_, ?_⟩
  · intro q hq
    rcases mem_indexRemove_elim idx u cid q hq with ⟨hq', hqe⟩ | ⟨st, hst, hqd, hne⟩
    · obtain ⟨hk, hn, hnd, hm⟩ := h2 q hq'
      refine ⟨hk, hn, hnd, ?_⟩
      intro cid' hcm
      obtain ⟨p, hp, hp1, hp2⟩ := hm cid' hcm
      have hpne : p.1 ≠ cid := by
        intro hpe
        have hpl : conns.lookup cid = some p.2 := by
          rw [← hpe]
          exact mem_lookup_of_nodup conns p.1 p.2 hkeys (by rwa [Prod.mk.eta])
        rw [hc] at hpl
        have hpc : p.2 = c := (Option.some.inj hpl).symm
        rw [hpc, hproj] at hp2
        exact hqe (Option.some.inj hp2).symm
      exact ⟨p, (mem_mapDelete _ _ _).mpr ⟨hp, hpne⟩, hp1, hp2⟩
    · subst hqd
      obtain ⟨hk, hn, hnd, hm⟩ := h2 (u, st) (lookup_mem idx u st hst)
      refine ⟨hk, hne, setDelete_nodup st cid hnd, ?_⟩
      intro cid' hcm
      rcases (mem_setDelete st cid cid').mp hcm with ⟨hcm1, hcm2⟩
      obtain ⟨p, hp, hp1, hp2⟩ := hm cid' hcm1
      have hpne : p.1 ≠ cid := by
        rw [hp1]
        exact hcm2
      exact ⟨p, (mem_mapDelete _ _ _).mpr ⟨hp, hpne⟩, hp1, hp2⟩
  · intro p hp ht
    obtain ⟨hp', hpne⟩ := (mem_mapDelete _ _ _).mp hp
    obtain ⟨q, hq, hq1, hq2⟩ := h3 p hp' ht
    by_cases hqu : q.1 = u
    · have hlu : idx.lookup u = some q.2 := by
        rw [← hqu]
        exact mem_lookup_of_nodup idx q.1 q.2 h1 (by rwa [Prod.mk.eta])
      have hmem : p.1 ∈ setDelete q.2 cid := (mem_setDelete _ _ _).mpr ⟨hq2, hpne⟩
      have hnen : setDelete q.2 cid ≠ [] := List.ne_nil_of_mem hmem
      refine ⟨(u, setDelete q.2 cid), mem_indexRemove_self idx u cid q.2 hlu hnen, ?_, hmem⟩
      rw [← hqu]
      exact hq1
    · exact ⟨q, mem_indexRemove_of_ne idx u cid q hq hqu, hq1, hq2⟩

theorem idxInv_ping (conns : List (String × SSEConnection))
    (proj : SSEConnection → Option String) (idx : List (String × List String))
    (cid : String) (c c' : SSEConnection)
    (h : idxInv conns proj idx) (hkeys : (conns.map (fun p => p.1)).Nodup)
    (hc : conns.lookup cid = some c) (hpp : proj c' = proj c) :
    idxInv (mapSet conns cid c') proj idx := by
  obtain ⟨h1, h2, h3⟩ := h
  refine ⟨h1, ?_, ?_⟩
  · intro q hq
    obtain ⟨hk, hn, hnd, hm⟩ := h2 q hq
    refine ⟨hk, hn, hnd, ?_⟩
    intro cid' hcm
    obtain ⟨p, hp, hp1, hp2⟩ := hm cid' hcm
    by_cases hpe : p.1 = cid
    · have hpl : conns.lookup cid = some p.2 := by
        rw [← hpe]
        exact mem_lookup_of_nodup conns p.1 p.2 hkeys (by rwa [Prod.mk.eta])
      rw [hc] at hpl
      have hpc : p.2 = c := (Option.some.inj hpl).symm
      refine ⟨(cid, c'), mem_mapSet_self conns cid c', ?_, ?_⟩
      · rw [← hpe]
        exact hp1
      · show proj c' = some q.1
        rw [hpp, ← hpc]
        exact hp2
    · exact ⟨p, mem_mapSet_of_ne conns cid c' p hp hpe, hp1, hp2⟩
  · intro p hp ht
    rcases mem_mapSet_elim conns cid c' p hp with hpd | ⟨hp', hpne⟩
    · subst hpd
      have hcm : (cid, c) ∈ conns := lookup_mem conns cid c hc
      have ht' : strTruthy (proj c) = true := by
        have hx : proj c' = proj c := hpp
        have ht2 : strTruthy (proj c') = true := ht
        rw [hx] at ht2
        exact ht2
      obtain ⟨q, hq, hq1, hq2⟩ := h3 (cid, c) hcm ht'
      refine ⟨q, hq, ?_, hq2⟩
      show some q.1 = proj c'
      rw [hpp]
      exact hq1
    · exact h3 p hp' ht

theorem storeInv_empty : StoreInv emptyStore := by
  refine ⟨?_, ?_, ⟨?_, ?_, ?_⟩, ⟨?_, ?_, ?_⟩⟩ <;> simp [emptyStore]

theorem storeInv_add (s : SSEConnectionStore) (c : SSEConnection)
    (h : StoreInv s) (hfresh : s.connections.lookup c.id = none) :
    StoreInv (s.addConnection c) := by
  obtain ⟨h1, h2, h3, h4⟩ := h
  have hconns : (s.addConnection c).connections = s.connections ++ [(c.id, c)] :=
    mapSet_absent _ _ _ hfresh
  refine ⟨?_, ?_, ?_, ?_⟩
  · rw [hconns, List.map_append]
    simp only [List.map_cons, List.map_nil]
    rw [List.nodup_append]
    refine ⟨h1, List.nodup_singleton _, ?_⟩
    intro a ha hb
    rcases List.mem_singleton.mp hb with rfl
    rcases List.mem_map.mp ha with ⟨p, hp, hpa⟩
    exact (lookup_eq_none_iff _ _).mp hfresh p hp hpa
  · rw [hconns]
    intro p hp
    rcases List.mem_append.mp hp with hp | hp
    · exact h2 p hp
    · rcases List.mem_singleton.mp hp with rfl
      rfl
  · rw [hconns]
    rcases hcu : c.userId with _ | u
    · have hidx : (s.addConnection c).userConnections = s.userConnections := by
        simp [SSEConnectionStore.addConnection, hcu]
      rw [hidx]
      exact idxInv_add_skip _ _ _ _ _ h3 (by simp [strTruthy, hcu])
    · rcases hue : u.isEmpty with _ | _
      · have hidx : (s.addConnection c).userConnections = indexAdd s.userConnections u c.id := by
          simp [SSEConnectionStore.addConnection, hcu, hue]
        rw [hidx]
        exact idxInv_add_idx _ _ _ _ _ _ h3 hcu hue
      · have hidx : (s.addConnection c).userConnections = s.userConnections := by
          simp [SSEConnectionStore.addConnection, hcu, hue]
        rw [hidx]
        exact idxInv_add_skip _ _ _ _ _ h3 (by simp [strTruthy, hcu, hue])
  · rw [hconns]
    rcases hcv : c.sessionId with _ | v
    · have hidx : (s.addConnection c).sessionConnections = s.sessionConnections := by
        simp [SSEConnectionStore.addConnection, hcv]
      rw [hidx]
      exact idxInv_add_skip _ _ _ _ _ h4 (by simp [strTruthy, hcv])
    · rcases hve : v.isEmpty with _ | _
      · have hidx : (s.addConnection c).sessionConnections = indexAdd s.sessionConnections v c.id := by
          simp [SSEConnectionStore.addConnection, hcv, hve]
        rw [hidx]
        exact idxInv_add_idx _ _ _ _ _ _ h4 hcv hve
      · have hidx : (s.addConnection c).sessionConnections = s.sessionConnections := by
          simp [SSEConnectionStore.addConnection, hcv, hve]
        rw [hidx]
        exact idxInv_add_skip _ _ _ _ _ h4 (by simp [strTruthy, hcv, hve])

theorem storeInv_remove (s : SSEConnectionStore) (cid : String)
    (h : StoreInv s) : StoreInv (s.removeConnection cid).1 := by
  obtain ⟨h1, h2, h3, h4⟩ := h
  rcases hc : s.connections.lookup cid with _ | c
  · have hid : s.removeConnection cid = (s, false) := by
      simp [SSEConnectionStore.removeConnection, hc]
    rw [hid]
    exact ⟨h1, h2, h3, h4⟩
  · have hconns : (s.removeConnection cid).1.connections = mapDelete s.connections cid := by
      simp [SSEConnectionStore.removeConnection, hc]
    refine ⟨?_, ?_, ?_, ?_⟩
    · rw [hconns]
      exact keys_mapDelete_nodup _ _ h1
    · rw [hconns]
      intro p hp
      exact h2 p ((mem_mapDelete _ _ _).mp hp).1
    · rw [hconns]
      rcases hcu : c.userId with _ | u
      · have hidx : (s.removeConnection cid).1.userConnections = s.userConnections := by
          simp [SSEConnectionStore.removeConnection, hc, hcu]
        rw [hidx]
        exact idxInv_remove_skip _ _ _ cid c h3 h1 hc (by simp [strTruthy, hcu])
      · rcases hue : u.isEmpty with _ | _
        · have hidx : (s.removeConnection cid).1.userConnections =
              indexRemove s.userConnections u cid := by
            simp [SSEConnectionStore.removeConnection, hc, hcu, hue]
          rw [hidx]
          exact idxInv_remove_idx _ _ _ cid c u h3 h1 hc hcu
        · have hidx : (s.removeConnection cid).1.userConnections = s.userConnections := by
            simp [SSEConnectionStore.removeConnection, hc, hcu, hue]
          rw [hidx]
          exact idxInv_remove_skip _ _ _ cid c h3 h1 hc (by simp [strTruthy, hcu, hue])
    · rw [hconns]
      rcases hcv : c.sessionId with _ | v
      · have hidx : (s.removeConnection cid).1.sessionConnections = s.sessionConnections := by
          simp [SSEConnectionStore.removeConnection, hc, hcv]
        rw [hidx]
        exact idxInv_remove_skip _ _ _ cid c h4 h1 hc (by simp [strTruthy, hcv])
      · rcases hve : v.isEmpty with _ | _
        · have hidx : (s.removeConnection cid).1.sessionConnections =
              indexRemove s.sessionConnections v cid := by
            simp [SSEConnectionStore.removeConnection, hc, hcv, hve]
          rw [hidx]
          exact idxInv_remove_idx _ _ _ cid c v h4 h1 hc hcv
        · have hidx : (s.removeConnection cid).1.sessionConnections = s.sessionConnections := by
            simp [SSEConnectionStore.removeConnection, hc, hcv, hve]
          rw [hidx]
          exact idxInv_remove_skip _ _ _ cid c h4 h1 hc (by simp [strTruthy, hcv, hve])

theorem storeInv_ping (s : SSEConnectionStore) (cid : String) (now : Nat)
    (h : StoreInv s) : StoreInv (s.updateLastPing cid now).1 := by
  obtain ⟨h1, h2, h3, h4⟩ := h
  rcases hc : s.connections.lookup cid with _ | c
  · have hid : s.updateLastPing cid now = (s, false) := by
      simp [SSEConnectionStore.updateLastPing, hc]
    rw [hid]
    exact ⟨h1, h2, h3, h4⟩
  · have hconns : (s.updateLastPing cid now).1.connections =
        mapSet s.connections cid { c with lastPing := now } := by
      simp [SSEConnectionStore.updateLastPing, hc]
    have huser : (s.updateLastPing cid now).1.userConnections = s.userConnections := by
      simp [SSEConnectionStore.updateLastPing, hc]
    have hsess : (s.updateLastPing cid now).1.sessionConnections = s.sessionConnections := by
      simp [SSEConnectionStore.updateLastPing, hc]
    refine ⟨?_, ?_, ?_, ?_⟩
    · rw [hconns, keys_mapSet_present _ _ _ (by simp [hc])]
      exact h1
    · rw [hconns]
      intro p hp
      rcases mem_mapSet_elim _ _ _ _ hp with hpd | ⟨hp', _⟩
      · subst hpd
        have hcd := h2 (cid, c) (lookup_mem _ _ _ hc)
        simpa using hcd
      · exact h2 p hp'
    · rw [hconns, huser]
      exact idxInv_ping _ _ _ cid c _ h3 h1 hc rfl
    · rw [hconns, hsess]
      exact idxInv_ping _ _ _ cid c _ h4 h1 hc rfl

theorem storeInv_clear (s : SSEConnectionStore) : StoreInv s.clear := storeInv_empty

/-- C4: every reachable registry state satisfies the three-way index
invariant: a connection id appears in the primary map iff it appears in
the userId index set when its userId is set and in the sessionId index
set when its sessionId is set, and a secondary set that empties is removed
from its index; the invariant is preserved by addConnection (under the
hub's fresh-id guarantee), removeConnection, updateLastPing and clear. -/
theorem store_invariant_reachable (s : SSEConnectionStore) (h : Reachable s) : StoreInv s := by
  induction h with
  | empty => exact storeInv_empty
  | add hr hfresh ih => exact storeInv_add _ _ ih hfresh
  | remove cid hr ih => exact storeInv_remove _ cid ih
  | ping cid now hr ih => exact storeInv_ping _ cid now ih
  | clearStep hr ih => exact storeInv_clear _

/-- C4 witness: a concrete reachable two-connection state (add, add,
remove) satisfies the invariant. -/
theorem store_invariant_reachable_witness :
    StoreInv ((((emptyStore.addConnection ⟨"a", some ("u1"), some ("s1"), 5, none⟩).addConnection
      ⟨"b", some ("u1"), none, 6, none⟩).removeConnection ("a")).1) :=
  store_invariant_reachable _
    (Reachable.remove ("a") (Reachable.add (Reachable.add Reachable.empty (by decide)) (by decide)))

theorem metaMatch_nil (c : SSEConnection) : metaMatch [] c = c.metadata.isSome := by
  rcases hm : c.metadata with _ | cm <;> simp [metaMatch, hm]

/-- C10: a present-but-empty metadata predicate still excludes every
connection whose metadata field is absent (the code tests conn.metadata
before evaluating the vacuous pairs), while any connection that has a
metadata object — even an empty one — passes.  Selectors with a truthy
connectionId short-circuit before the metadata post-filter and are outside
this claim's code path. -/
theorem getConnections_empty_metadata (s : SSEConnectionStore) (f : ConnectionFilter)
    (hcid : f.connectionId = none) (hmd : f.metadata = some []) :
    s.getConnections (some f) =
      (s.getConnections (some { f with metadata := none })).filter
        (fun c => c.metadata.isSome) ∧
    (∀ c ∈ s.getConnections (some f), c.metadata ≠ none) ∧
    (∀ c ∈ s.getConnections (some { f with metadata := none }),
      c.metadata.isSome = true → c ∈ s.getConnections (some f)) := by
  have hmain : s.getConnections (some f) =
      (s.getConnections (some { f with metadata := none })).filter
        (fun c => c.metadata.isSome) := by
    obtain ⟨fu, fs, fc, fm⟩ := f
    dsimp only at hcid hmd
    subst hcid
    subst hmd
    simp only [SSEConnectionStore.getConnections, strTruthy, Bool.false_eq_true, if_false]
    rw [List.filter_congr (fun c _ => metaMatch_nil c)]
    rfl
  refine ⟨hmain, ?_, ?_⟩
  · intro c hc
    rw [hmain] at hc
    have := (List.mem_filter.mp hc).2
    intro hnone
    rw [hnone] at this
    simp at this
  · intro c hc hsome
    rw [hmain]
    exact List.mem_filter.mpr ⟨hc, hsome⟩

theorem keys_filterMap_lookup {β : Type} (l : List (String × β))
    (h : (l.map (fun p => p.1)).Nodup) :
    (l.map (fun p => p.1)).filterMap (fun i => l.lookup i) = l.map (fun p => p.2) := by
  rw [List.filterMap_map]
  rw [List.filterMap_eq_map_iff_forall_eq_some.mpr]
  intro p hp
  exact mem_lookup_of_nodup l p.1 p.2 h (by rwa [Prod.mk.eta])

theorem idxInv_set_mem (conns : List (String × SSEConnection))
    (proj : SSEConnection → Option String) (idx : List (String × List String))
    (hkeys : (conns.map (fun p => p.1)).Nodup) (h : idxInv conns proj idx)
    (u : String) (us : List String) (hq : idx.lookup u = some us) (i : String) :
    i ∈ us ↔ ∃ c, conns.lookup i = some c ∧ proj c = some u := by
  constructor
  · intro hi
    obtain ⟨hk, hn, hnd, hm⟩ := h.2.1 (u, us) (lookup_mem idx u us hq)
    obtain ⟨p, hp, hp1, hp2⟩ := hm i hi
    refine ⟨p.2, ?_, hp2⟩
    rw [← hp1]
    exact mem_lookup_of_nodup conns p.1 p.2 hkeys (by rwa [Prod.mk.eta])
  · rintro ⟨c, hci, hcu⟩
    have hcm : (i, c) ∈ conns := lookup_mem conns i c hci
    have ht : strTruthy (proj c) = true := by
      rw [hcu]
      simp [strTruthy, (h.2.1 (u, us) (lookup_mem idx u us hq)).1]
    obtain ⟨q, hq', hq1, hq2⟩ := h.2.2 (i, c) hcm ht
    have hqu : q.1 = u := by
      rw [hcu] at hq1
      exact Option.some.inj hq1
    have hqq : idx.lookup u = some q.2 := by
      rw [← hqu]
      exact mem_lookup_of_nodup idx q.1 q.2 h.1 (by rwa [Prod.mk.eta])
    rw [hq] at hqq
    rw [Option.some.inj hqq]
    exact hq2

theorem idxInv_lookup_none (conns : List (String × SSEConnection))
    (proj : SSEConnection → Option String) (idx : List (String × List String))
    (h : idxInv conns proj idx) (u : String) (hu : u.isEmpty = false)
    (hq : idx.lookup u = none) (i : String) (c : SSEConnection)
    (hci : conns.lookup i = some c) : proj c ≠ some u := by
  intro hcu
  have ht : strTruthy (proj c) = true := by
    rw [hcu]
    simp [strTruthy, hu]
  obtain ⟨q, hq', hq1, hq2⟩ := h.2.2 (i, c) (lookup_mem conns i c hci) ht
  have hqu : q.1 = u := by
    rw [hcu] at hq1
    exact Option.some.inj hq1
  exact (lookup_eq_none_iff idx u).mp hq q hq' hqu

theorem idxInv_set_ne_nil (conns : List (String × SSEConnection))
    (proj : SSEConnection → Option String) (idx : List (String × List String))
    (h : idxInv conns proj idx) (u : String) (us : List String)
    (hq : idx.lookup u = some us) : us.isEmpty = false := by
  have := (h.2.1 (u, us) (lookup_mem idx u us hq)).2.1
  rcases hus : us with _ | ⟨x, t⟩
  · exact absurd hus this
  · simp

theorem gc_connectionId (s : SSEConnectionStore) (f : ConnectionFilter)
    (ht : strTruthy f.connectionId = true) :
    s.getConnections (some f) =
      (match s.connections.lookup (f.connectionId.getD "") with
       | some c => [c]
       | none => []) := by
  simp [SSEConnectionStore.getConnections, ht]

theorem gc_noaxis (s : SSEConnectionStore) (f : ConnectionFilter)
    (hk : (s.connections.map (fun p => p.1)).Nodup)
    (h1 : strTruthy f.connectionId = false) (h2 : strTruthy f.userId = false)
    (h3 : strTruthy f.sessionId = false) (h4 : f.metadata = none) :
    s.getConnections (some f) = s.connections.map (fun p => p.2) := by
  have hbase : s.getConnectionsBase f = s.connections.map (fun p => p.2) := by
    simp only [SSEConnectionStore.getConnectionsBase, h2, h3, Bool.false_eq_true, if_false]
    simp only [List.isEmpty_nil, Bool.not_false, Bool.and_true, Bool.true_and, if_true]
    exact keys_filterMap_lookup s.connections hk
  simp [SSEConnectionStore.getConnections, h1, h4, hbase]

theorem gc_user_base (s : SSEConnectionStore) (u : String) (hu : u.isEmpty = false) :
    s.getConnectionsBase ⟨some u, none, none, none⟩ =
      (match s.userConnections.lookup u with
       | some us => us.filterMap (fun i => s.connections.lookup i)
       | none => []) := by
  rcases hq : s.userConnections.lookup u with _ | us
  · simp [SSEConnectionStore.getConnectionsBase, strTruthy, hu, hq]
  · simp [SSEConnectionStore.getConnectionsBase, strTruthy, hu, hq]

/-- C5 clause: a pure userId selector returns exactly that user's
connections. -/
theorem gc_user (s : SSEConnectionStore) (hs : StoreInv s) (u : String)
    (hu : u.isEmpty = false) (c : SSEConnection) :
    c ∈ s.getConnections (some ⟨some u, none, none, none⟩) ↔
      ((c.id, c) ∈ s.connections ∧ c.userId = some u) := by
  obtain ⟨hk, hid, hui, hsi⟩ := hs
  have hgc : s.getConnections (some ⟨some u, none, none, none⟩) =
      s.getConnectionsBase ⟨some u, none, none, none⟩ := by
    simp [SSEConnectionStore.getConnections, strTruthy]
  rw [hgc, gc_user_base s u hu]
  rcases hq : s.userConnections.lookup u with _ | us
  · simp only [List.not_mem_nil, false_iff]
    rintro ⟨hcm, hcu⟩
    have hcl : s.connections.lookup c.id = some c := mem_lookup_of_nodup _ _ _ hk hcm
    exact idxInv_lookup_none _ _ _ hui u hu hq c.id c hcl hcu
  · simp only [List.mem_filterMap]
    constructor
    · rintro ⟨i, hi, hci⟩
      rcases (idxInv_set_mem _ _ _ hk hui u us hq i).mp hi with ⟨c', hci', hcu'⟩
      rw [hci] at hci'
      rcases Option.some.inj hci' with rfl
      have hcm : (i, c) ∈ s.connections := lookup_mem _ _ _ hci
      have hcid : c.id = i := hid (i, c) hcm
      exact ⟨by rwa [hcid], hcu'⟩
    · rintro ⟨hcm, hcu⟩
      have hcl : s.connections.lookup c.id = some c := mem_lookup_of_nodup _ _ _ hk hcm
      refine ⟨c.id, ?_, hcl⟩
      exact (idxInv_set_mem _ _ _ hk hui u us hq c.id).mpr ⟨c, hcl, hcu⟩

theorem gc_session_base (s : SSEConnectionStore) (v : String) (hv : v.isEmpty = false) :
    s.getConnectionsBase ⟨none, some v, none, none⟩ =
      (match s.sessionConnections.lookup v with
       | some ss => ss.filterMap (fun i => s.connections.lookup i)
       | none => []) := by
  rcases hq : s.sessionConnections.lookup v with _ | ss
  · simp [SSEConnectionStore.getConnectionsBase, strTruthy, hv, hq]
  · simp [SSEConnectionStore.getConnectionsBase, strTruthy, hv, hq]

/-- C5 clause: a pure sessionId selector returns exactly that session's
connections (empty when the session is absent). -/
theorem gc_session (s : SSEConnectionStore) (hs : StoreInv s) (v : String)
    (hv : v.isEmpty = false) (c : SSEConnection) :
    c ∈ s.getConnections (some ⟨none, some v, none, none⟩) ↔
      ((c.id, c) ∈ s.connections ∧ c.sessionId = some v) := by
  obtain ⟨hk, hid, hui, hsi⟩ := hs
  have hgc : s.getConnections (some ⟨none, some v, none, none⟩) =
      s.getConnectionsBase ⟨none, some v, none, none⟩ := by
    simp [SSEConnectionStore.getConnections, strTruthy]
  rw [hgc, gc_session_base s v hv]
  rcases hq : s.sessionConnections.lookup v with _ | ss
  · simp only [List.not_mem_nil, false_iff]
    rintro ⟨hcm, hcu⟩
    have hcl : s.connections.lookup c.id = some c := mem_lookup_of_nodup _ _ _ hk hcm
    exact idxInv_lookup_none _ _ _ hsi v hv hq c.id c hcl hcu
  · simp only [List.mem_filterMap]
    constructor
    · rintro ⟨i, hi, hci⟩
      rcases (idxInv_set_mem _ _ _ hk hsi v ss hq i).mp hi with ⟨c', hci', hcu'⟩
      rw [hci] at hci'
      rcases Option.some.inj hci' with rfl
      have hcm : (i, c) ∈ s.connections := lookup_mem _ _ _ hci
      have hcid : c.id = i := hid (i, c) hcm
      exact ⟨by rwa [hcid], hcu'⟩
    · rintro ⟨hcm, hcu⟩
      have hcl : s.connections.lookup c.id = some c := mem_lookup_of_nodup _ _ _ hk hcm
      refine ⟨c.id, ?_, hcl⟩
      exact (idxInv_set_mem _ _ _ hk hsi v ss hq c.id).mpr ⟨c, hcl, hcu⟩

/-- C5 clause: with both axes set the result is the intersection of the two
index sets, materialised through the primary map. -/
theorem gc_user_session (s : SSEConnectionStore) (hs : StoreInv s) (u v : String)
    (hu : u.isEmpty = false) (hv : v.isEmpty = false) (c : SSEConnection) :
    c ∈ s.getConnections (some ⟨some u, some v, none, none⟩) ↔
      ((c.id, c) ∈ s.connections ∧ c.userId = some u ∧ c.sessionId = some v) := by
  obtain ⟨hk, hid, hui, hsi⟩ := hs
  have hgc : s.getConnections (some ⟨some u, some v, none, none⟩) =
      s.getConnectionsBase ⟨some u, some v, none, none⟩ := by
    simp [SSEConnectionStore.getConnections, strTruthy]
  rw [hgc]
  rcases hqu : s.userConnections.lookup u with _ | us
  · have hbase : s.getConnectionsBase ⟨some u, some v, none, none⟩ = [] := by
      simp [SSEConnectionStore.getConnectionsBase, strTruthy, hu, hqu]
    rw [hbase]
    simp only [List.not_mem_nil, false_iff]
    rintro ⟨hcm, hcu, hcv⟩
    have hcl : s.connections.lookup c.id = some c := mem_lookup_of_nodup _ _ _ hk hcm
    exact idxInv_lookup_none _ _ _ hui u hu hqu c.id c hcl hcu
  · rcases hqv : s.sessionConnections.lookup v with _ | ss
    · have hbase : s.getConnectionsBase ⟨some u, some v, none, none⟩ = [] := by
        simp [SSEConnectionStore.getConnectionsBase, strTruthy, hu, hv, hqu, hqv]
      rw [hbase]
      simp only [List.not_mem_nil, false_iff]
      rintro ⟨hcm, hcu, hcv⟩
      have hcl : s.connections.lookup c.id = some c := mem_lookup_of_nodup _ _ _ hk hcm
      exact idxInv_lookup_none _ _ _ hsi v hv hqv c.id c hcl hcv
    · have hne : us.isEmpty = false := idxInv_set_ne_nil _ _ _ hui u us hqu
      have hbase : s.getConnectionsBase ⟨some u, some v, none, none⟩ =
          (us.filter (fun i => ss.contains i)).filterMap (fun i => s.connections.lookup i) := by
        simp [SSEConnectionStore.getConnectionsBase, strTruthy, hu, hv, hqu, hqv, hne]
      rw [hbase]
      simp only [List.mem_filterMap, List.mem_filter]
      constructor
      · rintro ⟨i, ⟨hiu, hisb⟩, hci⟩
        have his : i ∈ ss := List.elem_iff.mp hisb
        rcases (idxInv_set_mem _ _ _ hk hui u us hqu i).mp hiu with ⟨c', hci', hcu'⟩
        rw [hci] at hci'
        rcases Option.some.inj hci' with rfl
        rcases (idxInv_set_mem _ _ _ hk hsi v ss hqv i).mp his with ⟨c'', hci'', hcv''⟩
        rw [hci] at hci''
        rcases Option.some.inj hci'' with rfl
        have hcm : (i, c) ∈ s.connections := lookup_mem _ _ _ hci
        have hcid : c.id = i := hid (i, c) hcm
        exact ⟨by rwa [hcid], hcu', hcv''⟩
      · rintro ⟨hcm, hcu, hcv⟩
        have hcl : s.connections.lookup c.id = some c := mem_lookup_of_nodup _ _ _ hk hcm
        refine ⟨c.id, ⟨?_, ?_⟩, hcl⟩
        · exact (idxInv_set_mem _ _ _ hk hui u us hqu c.id).mpr ⟨c, hcl, hcu⟩
        · exact List.elem_iff.mpr ((idxInv_set_mem _ _ _ hk hsi v ss hqv c.id).mpr ⟨c, hcl, hcv⟩)

/-- C5 clause: a present metadata predicate post-filters the axis result by
strict equality on every pair; a metadata-less connection fails every
predicate, in particular every non-empty one. -/
theorem gc_metadata (s : SSEConnectionStore) (f : ConnectionFilter)
    (md : List (String × String)) (h1 : strTruthy f.connectionId = false)
    (hmd : f.metadata = some md) :
    s.getConnections (some f) =
      (s.getConnections (some { f with metadata := none })).filter (metaMatch md) ∧
    (md ≠ [] → ∀ c : SSEConnection, c.metadata = none → metaMatch md c = false) := by
  constructor
  · obtain ⟨fu, fs, fc, fm⟩ := f
    dsimp only at h1 hmd
    subst hmd
    simp only [SSEConnectionStore.getConnections, h1, Bool.false_eq_true, if_false]
    rfl
  · intro _ c hcm
    simp [metaMatch, hcm]

instance storeInvDecidable (s : SSEConnectionStore) : Decidable (StoreInv s) := by
  unfold StoreInv idxInv
  infer_instance

/-- C5: getConnections implements the spec's list algorithm on every
invariant-satisfying registry: a truthy connectionId selector
short-circuits to the single match or empty; a userId selector returns
exactly that user's connections (empty for an absent user); with both
userId and sessionId the result is exactly the connections carrying both
(the intersection of the two index sets); an absent session yields empty;
with no axis set every connection is returned; and a present metadata
predicate post-filters by equality on every pair, a metadata-less
connection failing any non-empty predicate. -/
theorem getConnections_spec (s : SSEConnectionStore) (hs : StoreInv s) :
    (s.getConnections none = s.connections.map (fun p => p.2)) ∧
    (∀ f : ConnectionFilter, strTruthy f.connectionId = true →
      s.getConnections (some f) =
        (match s.connections.lookup (f.connectionId.getD "") with
         | some c => [c]
         | none => [])) ∧
    (∀ f : ConnectionFilter, strTruthy f.connectionId = false → strTruthy f.userId = false →
      strTruthy f.sessionId = false → f.metadata = none →
      s.getConnections (some f) = s.connections.map (fun p => p.2)) ∧
    (∀ u : String, u.isEmpty = false → ∀ c : SSEConnection,
      c ∈ s.getConnections (some ⟨some u, none, none, none⟩) ↔
        ((c.id, c) ∈ s.connections ∧ c.userId = some u)) ∧
    (∀ v : String, v.isEmpty = false → ∀ c : SSEConnection,
      c ∈ s.getConnections (some ⟨none, some v, none, none⟩) ↔
        ((c.id, c) ∈ s.connections ∧ c.sessionId = some v)) ∧
    (∀ u v : String, u.isEmpty = false → v.isEmpty = false → ∀ c : SSEConnection,
      c ∈ s.getConnections (some ⟨some u, some v, none, none⟩) ↔
        ((c.id, c) ∈ s.connections ∧ c.userId = some u ∧ c.sessionId = some v)) ∧
    (∀ f : ConnectionFilter, ∀ md : List (String × String),
      strTruthy f.connectionId = false → f.metadata = some md →
      s.getConnections (some f) =
        (s.getConnections (some { f with metadata := none })).filter (metaMatch md) ∧
      (md ≠ [] → ∀ c : SSEConnection, c.metadata = none → metaMatch md c = false)) :=
  ⟨rfl, fun f ht => gc_connectionId s f ht,
   fun f h1 h2 h3 h4 => gc_noaxis s f hs.1 h1 h2 h3 h4,
   fun u hu c => gc_user s hs u hu c,
   fun v hv c => gc_session s hs v hv c,
   fun u v hu hv c => gc_user_session s hs u v hu hv c,
   fun f md h1 hmd => gc_metadata s f md h1 hmd⟩

/-- The spec's selector-intersection scenario: three connections
(uid u1, sid s1), (uid u1, sid s2), (uid u2, sid s1). -/
def wStore : SSEConnectionStore :=
  ((emptyStore.addConnection ⟨"ca", some ("u1"), some ("s1"), 0, none⟩).addConnection
    ⟨"cb", some ("u1"), some ("s2"), 0, none⟩).addConnection
    ⟨"cc", some ("u2"), some ("s1"), 0, none⟩

/-- C5 witness: on the spec's three-connection scenario the selector
(u1, s1) matches exactly the one connection carrying both. -/
theorem getConnections_spec_witness :
    StoreInv wStore ∧
    wStore.getConnections (some ⟨some ("u1"), some ("s1"), none, none⟩) =
      [⟨"ca", some ("u1"), some ("s1"), 0, none⟩] ∧
    ((⟨"ca", some ("u1"), some ("s1"), 0, none⟩ : SSEConnection) ∈
        wStore.getConnections (some ⟨some ("u1"), some ("s1"), none, none⟩) ↔
      (((⟨"ca", some ("u1"), some ("s1"), 0, none⟩ : SSEConnection).id,
          (⟨"ca", some ("u1"), some ("s1"), 0, none⟩ : SSEConnection)) ∈ wStore.connections ∧
        (⟨"ca", some ("u1"), some ("s1"), 0, none⟩ : SSEConnection).userId = some ("u1") ∧
        (⟨"ca", some ("u1"), some ("s1"), 0, none⟩ : SSEConnection).sessionId = some ("s1"))) :=
  ⟨by decide, by decide,
    (getConnections_spec wStore (by decide)).2.2.2.2.2.1 ("u1") ("s1") (by decide) (by decide) _⟩

/-- SSEManagerConfig plus the manager's counters and the registry.  Stream
controllers, logger and observers carry no registry-relevant state; write
success and close failure are abstracted as environment predicates where
the manager consumes them. -/
structure ManagerState where
  store : SSEConnectionStore
  heartbeatInterval : Nat
  connectionTimeout : Nat
  maxConnections : Nat
  enableHeartbeat : Bool
  eventsSent : Nat
  heartbeatsSent : Nat
deriving DecidableEq, Repr

/-- Result of SSEManager.removeConnection: the new state, the returned
boolean, whether controller.close() was attempted, and whether the
onDisconnect observer fired. -/
structure RemoveOutcome where
  m : ManagerState
  removed : Bool
  closeAttempted : Bool
  disconnectFired : Bool
deriving DecidableEq, Repr

/-- SSEManager.removeConnection: an unknown id returns false and changes
nothing; for a live id the controller is closed inside try/catch —
closeThrows says whether close() throws, and the catch only logs a
warning, so the outcome does not depend on it — the store entry is
removed, and onDisconnect fires iff the store removal reported true. -/
def removeConnectionM (closeThrows : Bool) (m : ManagerState) (cid : String) : RemoveOutcome :=
  match m.store.connections.lookup cid with
  | none => ⟨m, false, false, false⟩
  | some _ =>
    let r := m.store.removeConnection cid
    ⟨{ m with store := r.1 }, r.2, true, r.2⟩

/-- The write loop of SSEManager.sendEvent over the snapshot of matched
connections: a successful enqueue increments sent and the total-events
counter; a throwing enqueue increments failed and removes the failing
connection, and the loop continues with the next connection. -/
def sendLoop (writeOk closeThrows : String → Bool) :
    List SSEConnection → ManagerState → Nat → Nat → ManagerState × Nat × Nat
  | [], m, sent, failed => (m, sent, failed)
  | c :: cs, m, sent, failed =>
    if writeOk c.id then
      sendLoop writeOk closeThrows cs { m with eventsSent := m.eventsSent + 1 } (sent + 1) failed
    else
      sendLoop writeOk closeThrows cs (removeConnectionM (closeThrows c.id) m c.id).m sent
        (failed + 1)

/-- SSEManager.sendEvent: resolve the selector once against the registry,
format and encode the event once (the encoded bytes do not influence the
registry or the counters, so only the event type is carried), then run the
write loop; returns the final state and (sent, failed). -/
def sendEventM (writeOk closeThrows : String → Bool) (m : ManagerState) (evType : String)
    (filter : Option ConnectionFilter) : ManagerState × Nat × Nat :=
  sendLoop writeOk closeThrows (m.store.getConnections filter) m 0 0

/-- The error createConnection throws past the admission cap (the source
throws Error "Maximum connections (N) exceeded"). -/
inductive CreateError where
  | capacityExceeded
deriving DecidableEq, Repr

/-- SSEManager.createConnection: fails when the current count has reached
maxConnections, before any mutation; otherwise builds the connection
record under the minted id and the current time and registers it.  The
welcome "connected" frame enqueued on the fresh stream and the onConnect
observer do not touch the registry. -/
def createConnection (m : ManagerState) (cid : String) (u sid : Option String)
    (md : Option (List (String × String))) (now : Nat) :
    Except CreateError (ManagerState × SSEConnection) :=
  if m.maxConnections ≤ m.store.connections.length then .error .capacityExceeded
  else
    .ok ({ m with store := m.store.addConnection ⟨cid, u, sid, now, md⟩ },
      ⟨cid, u, sid, now, md⟩)

/-- The touch loop at the end of sendHeartbeat: refresh lastPing of every
currently registered connection (the snapshot is taken when the loop
runs). -/
def touchAll (now : Nat) (m : ManagerState) : ManagerState :=
  let st2 := (m.store.getConnections none).foldl
    (fun st c => (st.updateLastPing c.id now).1) m.store
  { m with store := st2 }

/-- cleanupStaleConnections: collect the stale list first, then remove each
stale connection through the manager-level removal. -/
def reapStale (now : Nat) (closeThrows : String → Bool) (m : ManagerState) : ManagerState :=
  (m.store.getStaleConnections m.connectionTimeout now).foldl
    (fun acc c => (removeConnectionM (closeThrows c.id) acc c.id).m) m

/-- One heartbeat tick as the JS event loop actually runs it: the interval
callback calls sendHeartbeat() WITHOUT awaiting it, so sendHeartbeat runs
synchronously only up to its first await — the broadcast — and the rest of
sendHeartbeat (the heartbeatsSent update and the touch loop) is queued as
a microtask; the callback then runs cleanupStaleConnections synchronously,
and the microtask runs after it.  Effective order: broadcast, reap,
touch. -/
def heartbeatTickCode (writeOk closeThrows : String → Bool) (now : Nat) (m : ManagerState) :
    ManagerState :=
  let r := sendEventM writeOk closeThrows m ("heartbeat") none
  let m2 := reapStale now closeThrows r.1
  let m3 := { m2 with heartbeatsSent := m2.heartbeatsSent + r.2.1 }
  touchAll now m3

/-- Modelled from the spec: one heartbeat tick in the order the spec
states — broadcast the heartbeat event, account it, touch every currently
registered connection, then reap stale connections. -/
def heartbeatTickSpec (writeOk closeThrows : String → Bool) (now : Nat) (m : ManagerState) :
    ManagerState :=
  let r := sendEventM writeOk closeThrows m ("heartbeat") none
  let m2 := { r.1 with heartbeatsSent := r.1.heartbeatsSent + r.2.1 }
  let m3 := touchAll now m2
  reapStale now closeThrows m3

theorem removeConnectionM_eventsSent (b : Bool) (m : ManagerState) (cid : String) :
    (removeConnectionM b m cid).m.eventsSent = m.eventsSent := by
  rcases hc : m.store.connections.lookup cid with _ | c <;> simp [removeConnectionM, hc]

theorem filter_length_split {α : Type} (l : List α) (p : α → Bool) :
    (l.filter p).length + (l.filter (fun a => !p a)).length = l.length := by
  induction l with
  | nil => rfl
  | cons a t ih =>
    by_cases h : p a = true <;> simp [List.filter_cons, h, ← ih] <;> omega

theorem sendLoop_spec (writeOk closeThrows : String → Bool) (l : List SSEConnection)
    (m : ManagerState) (sent failed : Nat) :
    (sendLoop writeOk closeThrows l m sent failed).2.1 =
        sent + (l.filter (fun c => writeOk c.id)).length ∧
    (sendLoop writeOk closeThrows l m sent failed).2.2 =
        failed + (l.filter (fun c => !writeOk c.id)).length ∧
    (sendLoop writeOk closeThrows l m sent failed).1.eventsSent =
        m.eventsSent + (l.filter (fun c => writeOk c.id)).length := by
  induction l generalizing m sent failed with
  | nil => simp [sendLoop]
  | cons c cs ih =>
    rcases hw : writeOk c.id with _ | _
    · obtain ⟨i1, i2, i3⟩ := ih (removeConnectionM (closeThrows c.id) m c.id).m sent (failed + 1)
      have hs : sendLoop writeOk closeThrows (c :: cs) m sent failed =
          sendLoop writeOk closeThrows cs (removeConnectionM (closeThrows c.id) m c.id).m sent
            (failed + 1) := by
        simp [sendLoop, hw]
      have hf1 : (c :: cs).filter (fun x => writeOk x.id) =
          cs.filter (fun x => writeOk x.id) := by
        simp [List.filter_cons, hw]
      have hf2 : (c :: cs).filter (fun x => !writeOk x.id) =
          c :: cs.filter (fun x => !writeOk x.id) := by
        simp [List.filter_cons, hw]
      rw [hs, hf1, hf2]
      refine ⟨i1, ?_, ?_⟩
      · rw [i2]
        simp only [List.length_cons]
        omega
      · rw [i3, removeConnectionM_eventsSent]
    · obtain ⟨i1, i2, i3⟩ := ih { m with eventsSent := m.eventsSent + 1 } (sent + 1) failed
      have hs : sendLoop writeOk closeThrows (c :: cs) m sent failed =
          sendLoop writeOk closeThrows cs { m with eventsSent := m.eventsSent + 1 } (sent + 1)
            failed := by
        simp [sendLoop, hw]
      have hf1 : (c :: cs).filter (fun x => writeOk x.id) =
          c :: cs.filter (fun x => writeOk x.id) := by
        simp [List.filter_cons, hw]
      have hf2 : (c :: cs).filter (fun x => !writeOk x.id) =
          cs.filter (fun x => !writeOk x.id) := by
        simp [List.filter_cons, hw]
      rw [hs, hf1, hf2]
      refine ⟨?_, i2, ?_⟩
      · rw [i1]
        simp only [List.length_cons]
        omega
      · rw [i3]
        have he : ({ m with eventsSent := m.eventsSent + 1 } : ManagerState).eventsSent =
            m.eventsSent + 1 := rfl
        rw [he]
        simp only [List.length_cons]
        omega

/-- C2: sendEvent's counters: sent + failed equals the number of
connections the selector matched at the start of the call, sent is exactly
the number of successful writes (per-connection failures are isolated and
the loop continues), and the total-events-sent counter grows by exactly
sent. -/
theorem sendEvent_counters (writeOk closeThrows : String → Bool) (m : ManagerState)
    (evType : String) (filter : Option ConnectionFilter) :
    (sendEventM writeOk closeThrows m evType filter).2.1 +
        (sendEventM writeOk closeThrows m evType filter).2.2 =
      (m.store.getConnections filter).length ∧
    (sendEventM writeOk closeThrows m evType filter).2.1 =
      ((m.store.getConnections filter).filter (fun c => writeOk c.id)).length ∧
    (sendEventM writeOk closeThrows m evType filter).1.eventsSent =
      m.eventsSent + (sendEventM writeOk closeThrows m evType filter).2.1 := by
  obtain ⟨h1, h2, h3⟩ := sendLoop_spec writeOk closeThrows (m.store.getConnections filter) m 0 0
  have hsplit := filter_length_split (m.store.getConnections filter) (fun c => writeOk c.id)
  unfold sendEventM
  refine ⟨?_, ?_, ?_⟩
  · rw [h1, h2]
    omega
  · rw [h1]
    omega
  · rw [h3, h1]
    omega

theorem length_addConnection_fresh (s : SSEConnectionStore) (c : SSEConnection)
    (h : s.connections.lookup c.id = none) :
    (s.addConnection c).connections.length = s.connections.length + 1 := by
  show (mapSet s.connections c.id c).length = _
  rw [mapSet_absent s.connections c.id c h]
  simp

/-- C3: createConnection succeeds iff the current connection count is
strictly below maxConnections; at or above the cap it fails with
CapacityExceeded before touching the registry, so the registry is
unchanged; on success the connection is registered, and with a fresh
minted id the registry grows by exactly one. -/
theorem createConnection_capacity (m : ManagerState) (cid : String)
    (u sid : Option String) (md : Option (List (String × String))) (now : Nat) :
    ((∃ r, createConnection m cid u sid md now = .ok r) ↔
      m.store.connections.length < m.maxConnections) ∧
    (m.maxConnections ≤ m.store.connections.length →
      createConnection m cid u sid md now = .error .capacityExceeded) ∧
    (m.store.connections.length < m.maxConnections →
      createConnection m cid u sid md now =
        .ok ({ m with store := m.store.addConnection ⟨cid, u, sid, now, md⟩ },
          ⟨cid, u, sid, now, md⟩)) ∧
    (m.store.connections.lookup cid = none →
      ∀ r, createConnection m cid u sid md now = .ok r →
        r.1.store.connections.length = m.store.connections.length + 1) := by
  by_cases h : m.maxConnections ≤ m.store.connections.length
  · have herr : createConnection m cid u sid md now = .error .capacityExceeded := by
      simp [createConnection, h]
    refine ⟨?_, fun _ => herr, fun hlt => absurd hlt (by omega), ?_⟩
    · constructor
      · rintro ⟨r, hr⟩
        rw [herr] at hr
        cases hr
      · intro hlt
        exact absurd hlt (by omega)
    · intro _ r hr
      rw [herr] at hr
      cases hr
  · have hlt : m.store.connections.length < m.maxConnections := by omega
    have hok : createConnection m cid u sid md now =
        .ok ({ m with store := m.store.addConnection ⟨cid, u, sid, now, md⟩ },
          ⟨cid, u, sid, now, md⟩) := by
      simp [createConnection, h]
    refine ⟨⟨fun _ => hlt, fun _ => ⟨_, hok⟩⟩, fun hge => absurd hge h, fun _ => hok, ?_⟩
    intro hfresh r hr
    rw [hok] at hr
    rcases Except.ok.inj hr with rfl
    exact length_addConnection_fresh m.store ⟨cid, u, sid, now, md⟩ hfresh

/-- C3 witness: with maxConnections 2 and two registered connections, a
third createConnection fails with CapacityExceeded and the registry still
holds exactly 2 connections. -/
theorem createConnection_capacity_witness :
    createConnection
        ⟨(emptyStore.addConnection ⟨"c1", none, none, 0, none⟩).addConnection
          ⟨"c2", none, none, 0, none⟩, 30000, 60000, 2, true, 0, 0⟩
        ("c3") none none none 5 = .error .capacityExceeded ∧
    ((emptyStore.addConnection ⟨"c1", none, none, 0, none⟩).addConnection
      ⟨"c2", none, none, 0, none⟩).connections.length = 2 :=
  ⟨(createConnection_capacity
      ⟨(emptyStore.addConnection ⟨"c1", none, none, 0, none⟩).addConnection
        ⟨"c2", none, none, 0, none⟩, 30000, 60000, 2, true, 0, 0⟩
      ("c3") none none none 5).2.1 (by decide), by decide⟩

/-- C6: the heartbeat tick does not run broadcast → touch → reap.  Because
the interval callback does not await sendHeartbeat(), the touch loop
(after the first await) runs as a microtask after cleanupStaleConnections:
the actual order is broadcast → reap → touch.  Concretely, with
heartbeatInterval 120000 > connectionTimeout 60000, a healthy connection
(write succeeds) whose lastPing is 100000 ms old is reaped by the tick the
code runs, while the spec's ordering would touch it first and keep it. -/
theorem heartbeat_order_diverges :
    (heartbeatTickCode (fun _ => true) (fun _ => false) 100000
      ⟨emptyStore.addConnection ⟨"c1", none, none, 0, none⟩,
        120000, 60000, 1000, true, 0, 0⟩).store.connections.length = 0 ∧
    (heartbeatTickSpec (fun _ => true) (fun _ => false) 100000
      ⟨emptyStore.addConnection ⟨"c1", none, none, 0, none⟩,
        120000, 60000, 1000, true, 0, 0⟩).store.connections.length = 1 ∧
    (heartbeatTickSpec (fun _ => true) (fun _ => false) 100000
      ⟨emptyStore.addConnection ⟨"c1", none, none, 0, none⟩,
        120000, 60000, 1000, true, 0, 0⟩).store.connections.lookup ("c1") =
      some ⟨"c1", none, none, 100000, none⟩ := by
  refine ⟨?_, ?_, ?_⟩ <;> decide

theorem not_in_index_of_absent (conns : List (String × SSEConnection))
    (proj : SSEConnection → Option String) (idx : List (String × List String))
    (h : idxInv conns proj idx) (cid : String)
    (hc : conns.lookup cid = none) : ∀ q ∈ idx, cid ∉ q.2 := by
  intro q hq hmem
  obtain ⟨hk, hn, hnd, hm⟩ := h.2.1 q hq
  obtain ⟨p, hp, hp1, hp2⟩ := hm cid hmem
  exact (lookup_eq_none_iff conns cid).mp hc p hp hp1

theorem not_in_index_remove_skip (conns : List (String × SSEConnection))
    (proj : SSEConnection → Option String) (idx : List (String × List String))
    (h : idxInv conns proj idx) (hkeys : (conns.map (fun p => p.1)).Nodup)
    (cid : String) (c : SSEConnection) (hc : conns.lookup cid = some c)
    (hproj : strTruthy (proj c) = false) : ∀ q ∈ idx, cid ∉ q.2 := by
  intro q hq hmem
  obtain ⟨hk, hn, hnd, hm⟩ := h.2.1 q hq
  obtain ⟨p, hp, hp1, hp2⟩ := hm cid hmem
  have hpl : conns.lookup cid = some p.2 := by
    rw [← hp1]
    exact mem_lookup_of_nodup conns p.1 p.2 hkeys (by rwa [Prod.mk.eta])
  rw [hc] at hpl
  have hpc : p.2 = c := (Option.some.inj hpl).symm
  have hcontra : strTruthy (proj c) = true := by
    rw [← hpc, hp2]
    simp [strTruthy, hk]
  rw [hproj] at hcontra
  cases hcontra

theorem not_in_index_remove_idx (conns : List (String × SSEConnection))
    (proj : SSEConnection → Option String) (idx : List (String × List String))
    (h : idxInv conns proj idx) (hkeys : (conns.map (fun p => p.1)).Nodup)
    (cid : String) (c : SSEConnection) (u : String) (hc : conns.lookup cid = some c)
    (hproj : proj c = some u) : ∀ q ∈ indexRemove idx u cid, cid ∉ q.2 := by
  intro q hq hmem
  rcases mem_indexRemove_elim idx u cid q hq with ⟨hq', hqe⟩ | ⟨st, hst, hqd, hne⟩
  · obtain ⟨hk, hn, hnd, hm⟩ := h.2.1 q hq'
    obtain ⟨p, hp, hp1, hp2⟩ := hm cid hmem
    have hpl : conns.lookup cid = some p.2 := by
      rw [← hp1]
      exact mem_lookup_of_nodup conns p.1 p.2 hkeys (by rwa [Prod.mk.eta])
    rw [hc] at hpl
    have hpc : p.2 = c := (Option.some.inj hpl).symm
    rw [hpc, hproj] at hp2
    exact hqe (Option.some.inj hp2).symm
  · subst hqd
    exact ((mem_setDelete st cid cid).mp hmem).2 rfl

/-- C7: removeConnection is idempotent: an unknown or already-removed id
returns false and changes nothing; a live id closes the writer (any close
error is swallowed — the outcome does not depend on whether close throws),
deregisters the connection, and fires onDisconnect iff the call actually
removed it; afterwards the id resolves to nothing and, on an
invariant-satisfying registry, appears in no index set. -/
theorem removeConnection_spec (ct : Bool) (m : ManagerState) (cid : String) :
    (m.store.connections.lookup cid = none →
      removeConnectionM ct m cid = ⟨m, false, false, false⟩) ∧
    (∀ c, m.store.connections.lookup cid = some c →
      (removeConnectionM ct m cid).removed = true ∧
      (removeConnectionM ct m cid).closeAttempted = true ∧
      (removeConnectionM ct m cid).m.store = (m.store.removeConnection cid).1 ∧
      (removeConnectionM ct m cid).m.store.connections.lookup cid = none) ∧
    ((removeConnectionM ct m cid).disconnectFired = (removeConnectionM ct m cid).removed) ∧
    (∀ ct', removeConnectionM ct m cid = removeConnectionM ct' m cid) ∧
    (removeConnectionM ct (removeConnectionM ct m cid).m cid =
      ⟨(removeConnectionM ct m cid).m, false, false, false⟩) ∧
    (StoreInv m.store →
      (∀ q ∈ (removeConnectionM ct m cid).m.store.userConnections, cid ∉ q.2) ∧
      (∀ q ∈ (removeConnectionM ct m cid).m.store.sessionConnections, cid ∉ q.2)) := by
  rcases hc : m.store.connections.lookup cid with _ | c
  · have hr : removeConnectionM ct m cid = ⟨m, false, false, false⟩ := by
      simp [removeConnectionM, hc]
    refine ⟨fun _ => hr, ?_, by rw [hr], ?_, ?_, ?_⟩
    · intro c' hcs
      simp at hcs
    · intro ct'
      rw [hr]
      simp [removeConnectionM, hc]
    · rw [hr]
      dsimp only
      exact hr
    · intro hs
      rw [hr]
      dsimp only
      exact ⟨not_in_index_of_absent _ _ _ hs.2.2.1 cid hc,
        not_in_index_of_absent _ _ _ hs.2.2.2 cid hc⟩
  · have hrm : (m.store.removeConnection cid).2 = true := by
      simp [SSEConnectionStore.removeConnection, hc]
    have hr : removeConnectionM ct m cid =
        ⟨{ m with store := (m.store.removeConnection cid).1 },
          (m.store.removeConnection cid).2, true, (m.store.removeConnection cid).2⟩ := by
      simp [removeConnectionM, hc]
    have hcs0 : (m.store.removeConnection cid).1.connections = mapDelete m.store.connections cid := by
      simp [SSEConnectionStore.removeConnection, hc]
    have hlook : (m.store.removeConnection cid).1.connections.lookup cid = none := by
      rw [hcs0]
      exact lookup_mapDelete_self _ _
    refine ⟨?_, ?_, by rw [hr], ?_, ?_, ?_⟩
    · intro hn
      simp at hn
    · intro c' hcs
      rw [hr]
      exact ⟨hrm, rfl, rfl, hlook⟩
    · intro ct'
      rw [hr]
      simp [removeConnectionM, hc]
    · rw [hr]
      dsimp only
      have hl2 : ({ m with store := (m.store.removeConnection cid).1 } :
          ManagerState).store.connections.lookup cid = none := hlook
      simp [removeConnectionM, hl2]
    · intro hs
      obtain ⟨hk, hid, hui, hsi⟩ := hs
      rw [hr]
      dsimp only
      constructor
      · rcases hcu : c.userId with _ | u
        · have hix : (m.store.removeConnection cid).1.userConnections =
              m.store.userConnections := by
            simp [SSEConnectionStore.removeConnection, hc, hcu]
          rw [hix]
          exact not_in_index_remove_skip _ _ _ hui hk cid c hc (by simp [strTruthy, hcu])
        · rcases hue : u.isEmpty with _ | _
          · have hix : (m.store.removeConnection cid).1.userConnections =
                indexRemove m.store.userConnections u cid := by
              simp [SSEConnectionStore.removeConnection, hc, hcu, hue]
            rw [hix]
            exact not_in_index_remove_idx _ _ _ hui hk cid c u hc hcu
          · have hix : (m.store.removeConnection cid).1.userConnections =
                m.store.userConnections := by
              simp [SSEConnectionStore.removeConnection, hc, hcu, hue]
            rw [hix]
            exact not_in_index_remove_skip _ _ _ hui hk cid c hc (by simp [strTruthy, hcu, hue])
      · rcases hcv : c.sessionId with _ | v
        · have hix : (m.store.removeConnection cid).1.sessionConnections =
              m.store.sessionConnections := by
            simp [SSEConnectionStore.removeConnection, hc, hcv]
          rw [hix]
          exact not_in_index_remove_skip _ _ _ hsi hk cid c hc (by simp [strTruthy, hcv])
        · rcases hve : v.isEmpty with _ | _
          · have hix : (m.store.removeConnection cid).1.sessionConnections =
                indexRemove m.store.sessionConnections v cid := by
              simp [SSEConnectionStore.removeConnection, hc, hcv, hve]
            rw [hix]
            exact not_in_index_remove_idx _ _ _ hsi hk cid c v hc hcv
          · have hix : (m.store.removeConnection cid).1.sessionConnections =
                m.store.sessionConnections := by
              simp [SSEConnectionStore.removeConnection, hc, hcv, hve]
            rw [hix]
            exact not_in_index_remove_skip _ _ _ hsi hk cid c hc (by simp [strTruthy, hcv, hve])

/-- C7 witness: on a one-connection manager, removing the live id reports
removed, the id then resolves to nothing, its user-index entry is gone,
and a second removal returns false and changes nothing. -/
theorem removeConnection_spec_witness :
    (removeConnectionM false
      ⟨emptyStore.addConnection ⟨"c1", some ("u1"), none, 0, none⟩,
        30000, 60000, 1000, true, 0, 0⟩ ("c1")).removed = true ∧
    (removeConnectionM false
      ⟨emptyStore.addConnection ⟨"c1", some ("u1"), none, 0, none⟩,
        30000, 60000, 1000, true, 0, 0⟩ ("c1")).m.store.connections.lookup ("c1") = none ∧
    (∀ q ∈ (removeConnectionM false
      ⟨emptyStore.addConnection ⟨"c1", some ("u1"), none, 0, none⟩,
        30000, 60000, 1000, true, 0, 0⟩ ("c1")).m.store.userConnections, ("c1") ∉ q.2) :=
  ⟨((removeConnection_spec false
      ⟨emptyStore.addConnection ⟨"c1", some ("u1"), none, 0, none⟩,
        30000, 60000, 1000, true, 0, 0⟩ ("c1")).2.1
      ⟨"c1", some ("u1"), none, 0, none⟩ (by decide)).1,
   ((removeConnection_spec false
      ⟨emptyStore.addConnection ⟨"c1", some ("u1"), none, 0, none⟩,
        30000, 60000, 1000, true, 0, 0⟩ ("c1")).2.1
      ⟨"c1", some ("u1"), none, 0, none⟩ (by decide)).2.2.2,
   ((removeConnection_spec false
      ⟨emptyStore.addConnection ⟨"c1", some ("u1"), none, 0, none⟩,
        30000, 60000, 1000, true, 0, 0⟩ ("c1")).2.2.2.2.2 (by decide)).1⟩

/-- One client event handler: an abstract identity plus whether invoking
it throws. -/
structure Handler where
  hid : Nat
  throws : Bool
deriving DecidableEq, Repr

/-- The client connection state that handleMessage updates. -/
structure ClientState where
  lastEvent : Option SSEEventData
  lastHeartbeat : Option Nat
  connectionId : Option Json

/-- JS property access (event.data as object).connectionId: an object
yields the field (or nothing when absent), any other value yields
nothing. -/
def jGet : Json → Str → Option Json
  | .obj fields, k => fields.lookup k
  | _, _ => none

def heartbeatType : Str := ['h', 'e', 'a', 'r', 't', 'b', 'e', 'a', 't']
def connectedType : Str := ['c', 'o', 'n', 'n', 'e', 'c', 't', 'e', 'd']
def starType : Str := ['*']
def connectionIdKey : Str := ['c', 'o', 'n', 'n', 'e', 'c', 't', 'i', 'o', 'n', 'I', 'd']

/-- use-sse.ts handleMessage: record lastEvent; a heartbeat event only
refreshes lastHeartbeat and reaches no handler; a connected event only
records data.connectionId and reaches no handler; any other event is
delivered to the handlers registered under its exact type and then to the
handlers registered under the wildcard.  Each handler runs inside its own
try/catch whose catch only logs, so the invocation log — returned as the
list of handler ids in call order — and the resulting state are the same
whether or not any handler throws. -/
def handleMessage (now : Nat) (handlers : List (Str × List Handler)) (st : ClientState)
    (ev : SSEEventData) : ClientState × List Nat :=
  let st0 := { st with lastEvent := some ev }
  if ev.type = heartbeatType then
    ({ st0 with lastHeartbeat := some now }, [])
  else if ev.type = connectedType then
    ({ st0 with connectionId := jGet ev.data connectionIdKey }, [])
  else
    (st0, ((handlers.lookup ev.type).getD []).map (fun h => h.hid) ++
      ((handlers.lookup starType).getD []).map (fun h => h.hid))

/-- The handler registry with the throw flags erased: all that dispatch
order and the call log can depend on. -/
def stripThrows (handlers : List (Str × List Handler)) : List (Str × List Nat) :=
  handlers.map (fun q => (q.1, q.2.map (fun h => h.hid)))

theorem lookup_stripThrows (hs : List (Str × List Handler)) (t : Str) :
    (stripThrows hs).lookup t = (hs.lookup t).map (fun l => l.map (fun h => h.hid)) := by
  induction hs with
  | nil => rfl
  | cons q tl ih =>
    rcases q with ⟨k, l⟩
    simp only [stripThrows, List.map_cons]
    rw [List.lookup_cons, List.lookup_cons]
    rcases hb : t == k with _ | _
    · simpa [stripThrows] using ih
    · rfl

theorem handlers_ids_eq (hs : List (Str × List Handler)) (t : Str) :
    ((hs.lookup t).getD []).map (fun h => h.hid) = ((stripThrows hs).lookup t).getD [] := by
  rw [lookup_stripThrows]
  rcases hs.lookup t with _ | l <;> rfl

/-- C8 counterexample: the claim promises each wildcard handler exactly
once per dispatched event, but an event whose type is the wildcard string
itself reaches the wildcard set twice — once as its exact type and once
through the wildcard pass. -/
theorem handleMessage_wildcard_twice :
    ((handleMessage 0 [(starType, [⟨1, false⟩])] ⟨none, none, none⟩
      ⟨starType, Json.null, none⟩).2).count 1 = 2 := rfl

/-- C8 (amended): a heartbeat event updates lastHeartbeat and reaches no
handler; a connected event only records data.connectionId; every other
event is delivered first to every handler under its exact type and then
to every handler under the wildcard, and the log and state are unchanged
when any handler's throw flag flips (exceptions are caught per handler);
a wildcard handler not also registered under the event's exact type runs
exactly once per event whose type is not itself the wildcard string. -/
theorem handleMessage_dispatch (now : Nat) (handlers : List (Str × List Handler))
    (st : ClientState) (ev : SSEEventData) :
    (ev.type = heartbeatType →
      handleMessage now handlers st ev =
        ({ st with lastEvent := some ev, lastHeartbeat := some now }, [])) ∧
    (ev.type ≠ heartbeatType → ev.type = connectedType →
      handleMessage now handlers st ev =
        ({ st with lastEvent := some ev, connectionId := jGet ev.data connectionIdKey }, [])) ∧
    (ev.type ≠ heartbeatType → ev.type ≠ connectedType →
      handleMessage now handlers st ev =
        ({ st with lastEvent := some ev },
          ((handlers.lookup ev.type).getD []).map (fun h => h.hid) ++
          ((handlers.lookup starType).getD []).map (fun h => h.hid))) ∧
    (∀ handlers', stripThrows handlers = stripThrows handlers' →
      handleMessage now handlers st ev = handleMessage now handlers' st ev) ∧
    (ev.type ≠ heartbeatType → ev.type ≠ connectedType → ev.type ≠ starType →
      ∀ hd ∈ (handlers.lookup starType).getD [],
        hd.hid ∉ ((handlers.lookup ev.type).getD []).map (fun h => h.hid) →
        (((handlers.lookup starType).getD []).map (fun h => h.hid)).count hd.hid = 1 →
        ((handleMessage now handlers st ev).2).count hd.hid = 1) := by
  refine ⟨?_, ?_, ?_, ?_, ?_⟩
  · intro h1
    simp [handleMessage, h1]
  · intro h1 h2
    have hx : ¬(connectedType = heartbeatType) := by decide
    simp [handleMessage, h1, h2, hx]
  · intro h1 h2
    simp [handleMessage, h1, h2]
  · intro hs' he
    by_cases h1 : ev.type = heartbeatType
    · simp [handleMessage, h1]
    · by_cases h2 : ev.type = connectedType
      · simp [handleMessage, h1, h2]
      · simp only [handleMessage, h1, h2, if_false]
        rw [handlers_ids_eq handlers ev.type, handlers_ids_eq handlers starType, he,
          ← handlers_ids_eq hs' ev.type, ← handlers_ids_eq hs' starType]
  · intro h1 h2 h3 hd hmem hnotin hcount
    simp only [handleMessage, h1, h2, if_false]
    rw [List.count_append]
    rw [List.count_eq_zero.mpr hnotin, hcount]

/-- C8 witness: an event of type x with a throwing handler under x and a
wildcard handler invokes both, in order, exactly once each. -/
theorem handleMessage_dispatch_witness :
    (handleMessage 0 [(['x'], [⟨1, true⟩]), (starType, [⟨2, false⟩])]
      ⟨none, none, none⟩ ⟨['x'], Json.null, none⟩).2 = [1, 2] :=
  congrArg Prod.snd
    ((handleMessage_dispatch 0 [(['x'], [⟨1, true⟩]), (starType, [⟨2, false⟩])]
      ⟨none, none, none⟩ ⟨['x'], Json.null, none⟩).2.2.1 (by decide) (by decide))

/-- C10 witness: with one metadata-less connection and one carrying an
empty metadata object, the empty predicate keeps exactly the connections
whose metadata is present. -/
theorem getConnections_empty_metadata_witness :
    ((emptyStore.addConnection ⟨"m1", none, none, 0, some []⟩).addConnection
      ⟨"m2", none, none, 0, none⟩).getConnections (some ⟨none, none, none, some []⟩) =
      (((emptyStore.addConnection ⟨"m1", none, none, 0, some []⟩).addConnection
        ⟨"m2", none, none, 0, none⟩).getConnections (some ⟨none, none, none, none⟩)).filter
        (fun c => c.metadata.isSome) :=
  (getConnections_empty_metadata
    ((emptyStore.addConnection ⟨"m1", none, none, 0, some []⟩).addConnection
      ⟨"m2", none, none, 0, none⟩) ⟨none, none, none, some []⟩ rfl rfl).1
